import Mathlib

/-!
Shallow embedding of the ImpactAnalysis core pipeline
(src/core/index.ts, src/core/impact/index.ts, src/core/architecture/index.ts,
and the DomainModelBuilder of src/unnamed/part_000) in Lean 4, together with
theorems settling the frozen claims about the natural-language specification.

Conventions of the embedding:
* JavaScript numbers are modelled as exact rationals; `Number(x.toFixed(2))`
  becomes `round2`, rounding half up at two decimals; `Math.max`/`Math.min`
  become `max`/`min`.
* JavaScript string methods (`includes`, `endsWith`, `startsWith`,
  `toLowerCase`, `split`, `replace(/\\/g, "/")`, `localeCompare` ordering)
  are modelled on the character list of the string (`js...` helpers below);
  `toLowerCase` is modelled on the ASCII range, which covers every string
  the analysed sources produce.
* A JavaScript `Map` is a keyed insertion list whose lookup returns the
  value of the last `set` for the key (`lastWithKey`, `mapUpsert`).
* A JavaScript `Set` is a duplicate-free list in insertion order (`setAdd`).
* ts-morph AST values are modelled by the rose tree `Ts`; facts the source
  reads from the type checker (enum-ness of a property type, enum resolution
  of a property access, symbol and type text) are fields of `TsInfo`.
-/

namespace ImpactAnalysis

/-! ## JavaScript primitives -/

/-- ASCII lowering of one character (`toLowerCase` on the ASCII range). -/
def lowerChar (c : Char) : Char :=
  if 'A' ≤ c ∧ c ≤ 'Z' then Char.ofNat (c.toNat + 32) else c

/-- JavaScript `s.toLowerCase()` (ASCII model). -/
def jsToLower (s : String) : String := String.mk (s.data.map lowerChar)

/-- JavaScript `s.includes(sub)`: substring test. -/
def jsIncludes (s sub : String) : Bool :=
  s.data.tails.any (fun t => sub.data.isPrefixOf t)

/-- JavaScript `s.endsWith(suf)`. -/
def jsEndsWith (s suf : String) : Bool := suf.data.isSuffixOf s.data

/-- JavaScript `s.startsWith(p)`. -/
def jsStartsWith (s p : String) : Bool := p.data.isPrefixOf s.data

/-- JavaScript `s.replace(/\\/g, "/")`. -/
def jsBackslashToSlash (s : String) : String :=
  String.mk (s.data.map (fun c => if c = '\\' then '/' else c))

/-- JavaScript `s.split("/")`. -/
def jsSplitSlash (s : String) : List String :=
  (s.data.foldr (fun x acc =>
    if x = '/' then [] :: acc
    else match acc with
      | h :: t => (x :: h) :: t
      | [] => [[x]]) [[]]).map String.mk

/-- Code-unit comparison of two character lists; models the ascending
`localeCompare` sort order of the source on its ASCII identifiers. -/
def charListLe : List Char → List Char → Bool
  | [], _ => true
  | _ :: _, [] => false
  | a :: as, b :: bs => if a = b then charListLe as bs else decide (a < b)

/-- The sort order used for impacted-node identifiers. -/
def strLe (a b : String) : Prop := charListLe a.data b.data = true

instance : DecidableRel strLe := fun a b => instDecidableEqBool _ _

/-- JavaScript `Set.add`: append only when absent, keeping insertion order. -/
def setAdd (l : List String) (x : String) : List String :=
  if l.contains x then l else l ++ [x]

/-- Builds a JavaScript `Set` from a list (`new Set(xs)`). -/
def listToSet (l : List String) : List String := l.foldl setAdd []

/-- JavaScript `Map.get` for a map built by inserting every element of `l`
keyed by `key`: the value of the last insertion for the key wins. -/
def lastWithKey {α : Type} (key : α → String) (l : List α) (k : String) :
    Option α :=
  l.foldl (fun acc x => if key x = k then some x else acc) none

/-! ## Contracts (src/core/contracts.ts) -/

/-- The five business-rule kinds of contracts.ts (`BusinessRuleType`). -/
inductive BusinessRuleType where
  | INVARIANT
  | POLICY
  | CALCULATION
  | STATE_TRANSITION
  | CONTEXT_RESTRICTION
deriving DecidableEq, Repr, Inhabited

/-- AST byte span of a rule (`astLocation` in contracts.ts); `end` is a Lean
keyword so the field is called `stop`. -/
structure AstLocation where
  start : Nat
  stop : Nat
deriving DecidableEq, Repr, Inhabited

/-- `BusinessRule` of contracts.ts; optional fields become `Option`. -/
structure BusinessRule where
  id : String
  type : BusinessRuleType
  entity : Option String
  method : Option String
  filePath : String
  condition : String
  consequence : String
  astLocation : AstLocation
  confidence : ℚ
deriving DecidableEq, Repr, Inhabited

/-- `RuleContext` of contracts.ts: the nine boolean confidence signals. -/
structure RuleContext where
  inDomainEntity : Bool
  mutatesStateField : Bool
  hasExplicitThrow : Bool
  inPublicMethod : Bool
  usesStateEnum : Bool
  outsideControllerInfra : Bool
  strongStructuralPattern : Bool
  inController : Bool
  isolatedCalculation : Bool
deriving DecidableEq, Repr, Inhabited

/-- `DomainEntity` of contracts.ts. -/
structure DomainEntity where
  name : String
  properties : List String
  methods : List String
  stateFields : List String
  filePath : String
deriving DecidableEq, Repr, Inhabited

/-- The four relation labels of contracts.ts (`DomainRelation["type"]`). -/
inductive DomainRelationType where
  | CALLS
  | DEPENDS_ON
  | MODIFIES
  | USES
deriving DecidableEq, Repr, Inhabited

/-- `DomainRelation` of contracts.ts; `from` and `to` are Lean keywords so
the fields are called `from_` and `to_`. -/
structure DomainRelation where
  type : DomainRelationType
  from_ : String
  to_ : String
deriving DecidableEq, Repr, Inhabited

/-- The impact-node kinds of contracts.ts (`ImpactNode["type"]`). -/
inductive ImpactNodeType where
  | RULE
  | ENTITY
  | FILE
  | METHOD
deriving DecidableEq, Repr, Inhabited

/-- `ImpactNode` of contracts.ts. -/
structure ImpactNode where
  id : String
  type : ImpactNodeType
  riskScore : ℚ
deriving DecidableEq, Repr, Inhabited

/-- `ImpactExplanation` of contracts.ts. -/
structure ImpactExplanation where
  fanOut : Nat
  callDepth : Nat
  affectedFiles : Nat
  affectedEntities : Nat
  crossLayerViolations : Nat
deriving DecidableEq, Repr, Inhabited

/-- `ImpactSimulationResult` of contracts.ts. -/
structure ImpactSimulationResult where
  rootRule : BusinessRule
  impactedNodes : List ImpactNode
  globalRiskScore : ℚ
  explanation : ImpactExplanation
deriving DecidableEq, Repr, Inhabited

/-- `ImpactSimulationInput` of contracts.ts. -/
structure ImpactSimulationInput where
  domainEntities : List DomainEntity
  businessRules : List BusinessRule
  domainRelations : List DomainRelation
deriving DecidableEq, Repr, Inhabited

/-! ## Confidence (src/core/rules/confidence.ts, inlined in core/index.ts) -/

/-- `Number(value.toFixed(2))` on a nonnegative JavaScript number: round
half up at two decimal places, over exact rationals. -/
def round2 (value : ℚ) : ℚ := ((⌊value * 100 + 1/2⌋ : ℤ) : ℚ) / 100

/-- `calculateConfidence` of src/core/index.ts (lines 180-204): additive
signals, the out-of-entity cap, the controller penalty, the isolated
calculation cap, the clamp to [0,1] and the two-decimal rounding. -/
def calculateConfidence (rule : BusinessRule) (context : RuleContext) : ℚ :=
  let c0 : ℚ := 0
  let c1 := if context.inDomainEntity then c0 + 0.25 else c0
  let c2 := if context.mutatesStateField then c1 + 0.25 else c1
  let c3 := if context.hasExplicitThrow then c2 + 0.15 else c2
  let c4 := if context.inPublicMethod then c3 + 0.1 else c3
  let c5 := if context.usesStateEnum then c4 + 0.1 else c4
  let c6 := if context.outsideControllerInfra then c5 + 0.1 else c5
  let c7 := if context.strongStructuralPattern then c6 + 0.05 else c6
  let c8 := if context.inDomainEntity then c7 else min c7 0.6
  let c9 := if context.inController then c8 - 0.2 else c8
  let c10 :=
    if rule.type = BusinessRuleType.CALCULATION ∧ context.isolatedCalculation then
      min c9 0.7
    else c9
  round2 (max 0 (min 1 c10))

/-- The confidence computation as the specification words it: one additive
sum of the seven contributions, then the caps and the penalty, then clamp
and round. Stated independently of `calculateConfidence` so the code can be
compared with the spec. -/
def confidenceSpec (t : BusinessRuleType) (context : RuleContext) : ℚ :=
  let base : ℚ :=
    (if context.inDomainEntity then (0.25 : ℚ) else 0) +
    (if context.mutatesStateField then (0.25 : ℚ) else 0) +
    (if context.hasExplicitThrow then (0.15 : ℚ) else 0) +
    (if context.inPublicMethod then (0.1 : ℚ) else 0) +
    (if context.usesStateEnum then (0.1 : ℚ) else 0) +
    (if context.outsideControllerInfra then (0.1 : ℚ) else 0) +
    (if context.strongStructuralPattern then (0.05 : ℚ) else 0)
  let capped := if context.inDomainEntity then base else min base 0.6
  let penalized := if context.inController then capped - 0.2 else capped
  let final :=
    if t = BusinessRuleType.CALCULATION ∧ context.isolatedCalculation then
      min penalized 0.7
    else penalized
  round2 (max 0 (min 1 final))

/-! ## Impact Simulation Engine (src/core/impact/index.ts) -/

/-- `normalize` of impact/index.ts (lines 16-21). -/
def normalize (value maxv : ℚ) : ℚ :=
  if maxv ≤ 0 then 0 else max 0 (min 1 (value / maxv))

/-- `isFileLike` of impact/index.ts (lines 27-30). -/
def isFileLike (nodeId : String) : Bool :=
  let lower := jsToLower nodeId
  jsIncludes lower "/" || jsIncludes lower "\\" ||
    jsEndsWith lower ".ts" || jsEndsWith lower ".tsx"

/-- `isMethodLike` of impact/index.ts (lines 36-38). -/
def isMethodLike (nodeId : String) : Bool :=
  jsIncludes nodeId "." || jsIncludes nodeId "#"

/-- `nodeType` of impact/index.ts (lines 40-51); the entities map only
answers `has`, so it is passed as the list of entity names; the rules map
likewise as the list of rule identifiers. -/
def nodeTypeOf (nodeId : String) (entityNames : List String)
    (ruleIds : List String) (rootRuleId : String) : ImpactNodeType :=
  if nodeId = rootRuleId ∨ ruleIds.contains nodeId then ImpactNodeType.RULE
  else if entityNames.contains nodeId then ImpactNodeType.ENTITY
  else if isFileLike nodeId then ImpactNodeType.FILE
  else ImpactNodeType.METHOD

/-- `stateMutationWeight` of impact/index.ts (lines 53-68). -/
def stateMutationWeight (rule : BusinessRule) : ℚ :=
  match rule.type with
  | BusinessRuleType.STATE_TRANSITION => 1
  | BusinessRuleType.INVARIANT => 0.9
  | BusinessRuleType.POLICY => 0.7
  | BusinessRuleType.CALCULATION => 0.6
  | BusinessRuleType.CONTEXT_RESTRICTION => 0.5

/-- `crossLayerViolationWeight` of impact/index.ts (lines 70-82). -/
def crossLayerViolationWeight (rule : BusinessRule) : ℚ :=
  let path := jsToLower rule.filePath
  if jsIncludes path "controller" then 1
  else if jsIncludes path "service" then 0.7
  else if rule.entity.isSome then 0.2
  else 1

/-- `GraphTraversal.getOutgoingDependencies`. -/
def getOutgoing (relations : List DomainRelation) (nodeId : String) :
    List DomainRelation :=
  relations.filter (fun r => r.from_ = nodeId)

/-- `GraphTraversal.getIncomingDependencies`. -/
def getIncoming (relations : List DomainRelation) (nodeId : String) :
    List DomainRelation :=
  relations.filter (fun r => r.to_ = nodeId)

/-- `GraphTraversal.getFanOut`: distinct outgoing targets. -/
def getFanOut (relations : List DomainRelation) (nodeId : String) : Nat :=
  (listToSet ((getOutgoing relations nodeId).map (fun r => r.to_))).length

/-- `GraphTraversal.getFanIn`: distinct incoming sources. -/
def getFanIn (relations : List DomainRelation) (nodeId : String) : Nat :=
  (listToSet ((getIncoming relations nodeId).map (fun r => r.from_))).length

/-- The three edge labels followed by the impact traversal. -/
def isImpactKind : DomainRelationType → Bool
  | DomainRelationType.CALLS => true
  | DomainRelationType.DEPENDS_ON => true
  | DomainRelationType.MODIFIES => true
  | DomainRelationType.USES => false

/-- One breadth-first worklist loop shared by `getCallDepth` and
`impactedSubgraph` of impact/index.ts: processes the queue of
(identifier, depth) pairs, marking new targets visited and classifying
them direct (found at depth 0) or indirect, and records the maximum depth
dequeued; exploration stops beyond depth 5. The `fuel` argument only
bounds the number of dequeues for termination: every enqueue is guarded by
the visited set, so at most one dequeue per distinct relation target plus
the root can ever happen, and callers pass `relations.length + 1`. -/
def bfsLoop (relations : List DomainRelation) :
    Nat → List (String × Nat) → List String → List String → List String →
    Nat → List String × List String × List String × Nat
  | 0, _, visited, direct, indirect, maxD =>
    (visited, direct, indirect, maxD)
  | _ + 1, [], visited, direct, indirect, maxD =>
    (visited, direct, indirect, maxD)
  | fuel + 1, (id, depth) :: rest, visited, direct, indirect, maxD =>
    let maxD' := max maxD depth
    if 5 ≤ depth then
      bfsLoop relations fuel rest visited direct indirect maxD'
    else
      let st := (getOutgoing relations id).foldl
        (fun (st : List (String × Nat) × List String × List String × List String) rel =>
          if isImpactKind rel.type = false then st
          else if st.2.1.contains rel.to_ then st
          else
            (st.1 ++ [(rel.to_, depth + 1)], st.2.1 ++ [rel.to_],
             if depth = 0 then st.2.2.1 ++ [rel.to_] else st.2.2.1,
             if depth = 0 then st.2.2.2 else st.2.2.2 ++ [rel.to_]))
        (rest, visited, direct, indirect)
      bfsLoop relations fuel st.1 st.2.1 st.2.2.1 st.2.2.2 maxD'

/-- `GraphTraversal.getCallDepth` of impact/index.ts (lines 111-139). -/
def getCallDepth (relations : List DomainRelation) (nodeId : String) : Nat :=
  (bfsLoop relations (relations.length + 1) [(nodeId, 0)] [nodeId] [] [] 0).2.2.2

/-- Result of `GraphTraversal.impactedSubgraph`. -/
structure Subgraph where
  directFanOut : Nat
  indirectFanOut : Nat
  impactedNodeIds : List String
  callDepth : Nat
deriving DecidableEq, Repr, Inhabited

/-- `GraphTraversal.impactedSubgraph` of impact/index.ts (lines 141-190). -/
def impactedSubgraph (relations : List DomainRelation)
    (rootNodeId : String) : Subgraph :=
  let r := bfsLoop relations (relations.length + 1) [(rootNodeId, 0)]
    [rootNodeId] [] [] 0
  { directFanOut := r.2.1.length
    indirectFanOut := r.2.2.1.length
    impactedNodeIds := r.1
    callDepth := r.2.2.2 }

/-- `resolveRootNode` of impact/index.ts (lines 193-204). -/
def resolveRootNode (rule : BusinessRule) : String :=
  match rule.entity, rule.method with
  | some e, some m => e ++ "." ++ m
  | none, some m => rule.filePath ++ "#" ++ m
  | some e, none => e
  | none, none => rule.id

/-- `entityCriticalityWeight` of impact/index.ts (lines 206-228). -/
def entityCriticalityWeight (entityName : Option String)
    (rules : List BusinessRule) (entities : List DomainEntity)
    (relations : List DomainRelation) : ℚ :=
  match entityName with
  | none => 1
  | some name =>
    let entityRules : Nat := rules.countP (fun r => r.entity = some name)
    let entityNames := listToSet (entities.map (fun e => e.name))
    let maxRulesPerEntity : Nat :=
      (entityNames.map
        (fun n => rules.countP (fun r => r.entity = some n))).foldl max 1
    let fanIn := getFanIn relations name
    let maxFanIn : Nat :=
      (entityNames.map (fun n => getFanIn relations n)).foldl max 1
    round2 ((normalize (entityRules : ℚ) (maxRulesPerEntity : ℚ) +
      normalize (fanIn : ℚ) (maxFanIn : ℚ)) / 2)

/-- `crossLayerViolationsCount` of impact/index.ts (lines 230-239). -/
def crossLayerViolationsCount (impactedNodeIds : List String) : Nat :=
  impactedNodeIds.countP (fun nodeId =>
    jsIncludes (jsToLower nodeId) "controller" ||
    jsIncludes (jsToLower nodeId) "infra")

/-- The impacted identifier set of a simulation after the entity and
entity.method injections (impact/index.ts lines 252-260). -/
def impactedAfterInjections (rootRule : BusinessRule)
    (relations : List DomainRelation) : List String :=
  let sub := impactedSubgraph relations (resolveRootNode rootRule)
  let ids1 := match rootRule.entity with
    | some e => setAdd sub.impactedNodeIds e
    | none => sub.impactedNodeIds
  match rootRule.entity, rootRule.method with
  | some e, some m => setAdd ids1 (e ++ "." ++ m)
  | _, _ => ids1

/-- `ImpactSimulationEngine.simulate` of impact/index.ts (lines 241-346).
The unknown-rule throw becomes `Except.error`. -/
def simulate (ruleId : String) (input : ImpactSimulationInput) :
    Except String ImpactSimulationResult :=
  let relations := input.domainRelations
  match lastWithKey BusinessRule.id input.businessRules ruleId with
  | none => Except.error ("Rule not found: " ++ ruleId)
  | some rootRule =>
    let sub := impactedSubgraph relations (resolveRootNode rootRule)
    let impacted := impactedAfterInjections rootRule relations
    let projectNodeIds := relations.foldl
      (fun acc r => setAdd (setAdd acc r.from_) r.to_) []
    let maxFanOut : Nat :=
      (projectNodeIds.map (fun id => getFanOut relations id)).foldl max 1
    let maxCallDepth : Nat :=
      (projectNodeIds.map (fun id => getCallDepth relations id)).foldl max 1
    let fanOut := sub.directFanOut + sub.indirectFanOut
    let callDepth := sub.callDepth
    let fanOutWeight := normalize (fanOut : ℚ) (maxFanOut : ℚ)
    let callDepthWeight := normalize (callDepth : ℚ) (maxCallDepth : ℚ)
    let mutationWeight := stateMutationWeight rootRule
    let layerWeight := crossLayerViolationWeight rootRule
    let criticalityWeight := entityCriticalityWeight rootRule.entity
      input.businessRules input.domainEntities relations
    let raw := fanOutWeight * 0.25 + callDepthWeight * 0.15 +
      mutationWeight * 0.2 + layerWeight * 0.2 + criticalityWeight * 0.2
    let raw2 := if rootRule.entity = none then max raw 0.85 else raw
    let globalRiskScore := round2 (max 0 (min 1 raw2))
    let entityNames := input.domainEntities.map (fun e => e.name)
    let ruleIds := input.businessRules.map (fun r => r.id)
    let impactedNodes : List ImpactNode :=
      { id := rootRule.id, type := ImpactNodeType.RULE,
        riskScore := globalRiskScore } ::
      (List.insertionSort strLe
          (impacted.filter (fun id => id ≠ rootRule.id))).map
        (fun id =>
          { id := id
            type := nodeTypeOf id entityNames ruleIds rootRule.id
            riskScore := globalRiskScore })
    let affectedFiles0 := impacted.foldl
      (fun acc v => if isFileLike v then setAdd acc v else acc) []
    let affectedFiles :=
      if rootRule.filePath = "" then affectedFiles0
      else setAdd affectedFiles0 rootRule.filePath
    let affectedEntities0 := impacted.foldl
      (fun acc v => if entityNames.contains v then setAdd acc v else acc) []
    let affectedEntities := match rootRule.entity with
      | some e => setAdd affectedEntities0 e
      | none => affectedEntities0
    Except.ok
      { rootRule := rootRule
        impactedNodes := impactedNodes
        globalRiskScore := globalRiskScore
        explanation :=
          { fanOut := fanOut
            callDepth := callDepth
            affectedFiles := affectedFiles.length
            affectedEntities := affectedEntities.length
            crossLayerViolations := crossLayerViolationsCount impacted } }

/-! ## Concrete inputs used by witnesses and counterexamples -/

/-- Extracts the payload of a successful simulation, with a default for the
error case. -/
def okOr (d : ImpactSimulationResult) :
    Except String ImpactSimulationResult → ImpactSimulationResult
  | Except.ok r => r
  | Except.error _ => d

/-- A minimal rule living in a class-free file, used as witness input. -/
def w2rule : BusinessRule :=
  { id := "POLICY:src/a.ts:1", type := BusinessRuleType.POLICY,
    entity := none, method := none, filePath := "src/a.ts",
    condition := "x", consequence := "y", astLocation := ⟨0, 1⟩,
    confidence := 0 }

/-- Witness simulation input: one rule, no entities, no relations. -/
def w2input : ImpactSimulationInput := ⟨[], [w2rule], []⟩

/-- The result of the witness simulation. -/
def w2res : ImpactSimulationResult :=
  okOr default (simulate "POLICY:src/a.ts:1" w2input)

/-- A lone CALCULATION rule whose file path is not path-like (no slash, no
source extension): its identifier is not file-like either, yet the engine
adds the file path to the affected-files set. -/
def c6rule : BusinessRule :=
  { id := "CALCULATION:main.py:5", type := BusinessRuleType.CALCULATION,
    entity := none, method := none, filePath := "main.py",
    condition := "a", consequence := "a + 1", astLocation := ⟨5, 10⟩,
    confidence := 0 }

/-- Input for the affected-files counterexample. -/
def c6input : ImpactSimulationInput := ⟨[], [c6rule], []⟩

/-- The result of the affected-files counterexample simulation. -/
def c6res : ImpactSimulationResult :=
  okOr default (simulate "CALCULATION:main.py:5" c6input)

/-! ## ts-morph AST model -/

/-- The syntax kinds the pipeline inspects. -/
inductive TsKind where
  | importDecl
  | classDecl
  | enumDecl
  | functionDecl
  | methodDecl
  | propertyDecl
  | binaryExpr
  | ifStmt
  | throwStmt
  | returnStmt
  | newExpr
  | callExpr
  | propAccess
  | identifier
  | numericLit
  | block
  | other
deriving DecidableEq, Repr, Inhabited

/-- `getKindName()` of a node. -/
def kindName : TsKind → String
  | TsKind.importDecl => "ImportDeclaration"
  | TsKind.classDecl => "ClassDeclaration"
  | TsKind.enumDecl => "EnumDeclaration"
  | TsKind.functionDecl => "FunctionDeclaration"
  | TsKind.methodDecl => "MethodDeclaration"
  | TsKind.propertyDecl => "PropertyDeclaration"
  | TsKind.binaryExpr => "BinaryExpression"
  | TsKind.ifStmt => "IfStatement"
  | TsKind.throwStmt => "ThrowStatement"
  | TsKind.returnStmt => "ReturnStatement"
  | TsKind.newExpr => "NewExpression"
  | TsKind.callExpr => "CallExpression"
  | TsKind.propAccess => "PropertyAccessExpression"
  | TsKind.identifier => "Identifier"
  | TsKind.numericLit => "NumericLiteral"
  | TsKind.block => "Block"
  | TsKind.other => "Other"

/-- Node attributes the pipeline reads. `text` is `getText()`; `op` is the
operator token text of a binary expression; `typeIsEnum` models
`getType().isEnum() / isEnumLiteral()` and the enum-declaration check on a
property type; `resolvesToEnum` models the enum resolution of a property
access; `scope` is `getScope()` (`none` for an unscoped method); `params`
are the parameter names of a method; `start`/`stop` are the byte span;
`moduleSpecifier` is `getModuleSpecifierValue()` of an import. -/
structure TsInfo where
  name : Option String := none
  text : String := ""
  op : String := ""
  isReadonly : Bool := false
  typeIsEnum : Bool := false
  resolvesToEnum : Bool := false
  scope : Option String := none
  params : List String := []
  filePath : String := ""
  start : Nat := 0
  stop : Nat := 0
  symbol : Option String := none
  typeText : Option String := none
  moduleSpecifier : String := ""
deriving DecidableEq, Repr, Inhabited

/-- A syntax node: kind, attributes and children in source order. -/
inductive Ts where
  | mk (kind : TsKind) (info : TsInfo) (children : List Ts)

instance : Inhabited Ts := ⟨Ts.mk TsKind.other {} []⟩

def Ts.kind : Ts → TsKind
  | Ts.mk k _ _ => k

def Ts.info : Ts → TsInfo
  | Ts.mk _ i _ => i

def Ts.children : Ts → List Ts
  | Ts.mk _ _ cs => cs

mutual

/-- All strict descendants of a node, in depth-first preorder
(`forEachDescendant` / `getDescendants`). -/
def Ts.descendants : Ts → List Ts
  | Ts.mk _ _ cs => Ts.descList cs

def Ts.descList : List Ts → List Ts
  | [] => []
  | t :: ts => t :: (Ts.descendants t ++ Ts.descList ts)

end

/-- `getDescendantsOfKind(k)`. -/
def descendantsOfKind (k : TsKind) (t : Ts) : List Ts :=
  t.descendants.filter (fun d => d.kind = k)

/-- The assignment operator token texts (plain and compound). -/
def assignmentOps : List String := ["=", "+=", "-=", "*=", "/=", "%="]

/-- `isAssignment` of a binary expression (operator check). -/
def isAssignmentB (b : Ts) : Bool := assignmentOps.contains b.info.op

/-- `assignedThisField`: the field name when the expression is an
assignment whose left side is `this.<field>`; the children of a binary
node are `[left, right]` and the child of a property access is its object
expression. -/
def assignedThisField (b : Ts) : Option String :=
  if isAssignmentB b = false then none
  else
    match b.children with
    | left :: _ =>
      if left.kind = TsKind.propAccess then
        match left.children with
        | obj :: _ => if obj.info.text = "this" then left.info.name else none
        | [] => none
      else none
    | [] => none

/-- `hasThrow`: some throw statement among the strict descendants. -/
def hasThrow (n : Ts) : Bool := (descendantsOfKind TsKind.throwStmt n).length > 0

/-- `hasReturn`: some return statement among the strict descendants. -/
def hasReturn (n : Ts) : Bool :=
  (descendantsOfKind TsKind.returnStmt n).length > 0

/-- `getMethods()` of a class: its method members. -/
def classMethods (c : Ts) : List Ts :=
  c.children.filter (fun m => m.kind = TsKind.methodDecl)

/-- `getProperties()` of a class: its property members. -/
def classProps (c : Ts) : List Ts :=
  c.children.filter (fun p => p.kind = TsKind.propertyDecl)

/-- `getName()` of a method (always present on the analysed sources). -/
def methodName (m : Ts) : String := m.info.name.getD ""

/-- `getName()` of a property. -/
def propName (p : Ts) : String := p.info.name.getD ""

/-- `getName()` of a class (may be absent). -/
def clsName (c : Ts) : Option String := c.info.name

/-- First child of an if statement: its condition expression. -/
def ifCond (i : Ts) : Ts := i.children.head?.getD default

/-- Second child of an if statement: its then statement. -/
def thenStatement (i : Ts) : Ts := (i.children.drop 1).head?.getD default

/-- Third child of an if statement, when present: its else statement. -/
def elseStatement (i : Ts) : Option Ts := (i.children.drop 2).head?

/-! ## Semantic Enricher (src/core/index.ts lines 92-172) -/

/-- `ParsedFile`: a path and the top-level statements of its tree. -/
structure ParsedFile where
  filePath : String
  ast : List Ts

/-- `SemanticNode` of contracts.ts; `ancestors` carries the ancestor chain
(nearest first) that ts-morph exposes through parent pointers. -/
structure SemanticNode where
  kind : String
  symbol : Option String
  type : Option String
  filePath : String
  astNode : Ts
  ancestors : List Ts

/-- A call-graph edge. -/
structure CallGraphEdge where
  from_ : String
  to_ : String
  filePath : String
deriving DecidableEq, Repr, Inhabited

/-- `SemanticAnalysis` of contracts.ts. -/
structure SemanticAnalysis where
  parsedFiles : List ParsedFile
  nodes : List SemanticNode
  callGraph : List CallGraphEdge

mutual

/-- Depth-first preorder walk producing every descendant paired with its
ancestor chain (nearest first). -/
def walkNode (anc : List Ts) : Ts → List (Ts × List Ts)
  | Ts.mk k i cs =>
    (Ts.mk k i cs, anc) :: walkList (Ts.mk k i cs :: anc) cs

def walkList (anc : List Ts) : List Ts → List (Ts × List Ts)
  | [] => []
  | t :: ts => walkNode anc t ++ walkList anc ts

end

/-- The kind names tracked by `SemanticEnricher.enrich`
(src/core/index.ts lines 126-138). -/
def trackedKindNames : List String :=
  ["ImportDeclaration", "ClassDeclaration", "EnumDeclaration",
   "MethodDeclaration", "PropertyDeclaration", "BinaryExpression",
   "IfStatement", "ThrowStatement", "ReturnStatement", "NewExpression",
   "CallExpression"]

/-- The ten kind names the specification lists for `SemanticNode.kind`. -/
def specTrackedKindNames : List String :=
  ["ClassDeclaration", "MethodDeclaration", "PropertyDeclaration",
   "ImportDeclaration", "BinaryExpression", "IfStatement", "ThrowStatement",
   "ReturnStatement", "NewExpression", "CallExpression"]

/-- `enclosingCallableName` of src/core/index.ts (lines 104-116): nearest
method name, else nearest function name, else `<anonymous>`; JavaScript
truthiness makes an empty name fall through. -/
def enclosingCallableName (anc : List Ts) : String :=
  let mName := match anc.find? (fun a => a.kind = TsKind.methodDecl) with
    | some m => methodName m
    | none => ""
  if mName ≠ "" then mName
  else
    let fName := match anc.find? (fun a => a.kind = TsKind.functionDecl) with
      | some f => f.info.name.getD ""
      | none => ""
    if fName ≠ "" then fName else "<anonymous>"

/-- `getExpression().getText()` of a call or new expression: the callee,
modelled as the text of the first child. -/
def callCallee (c : Ts) : String :=
  (c.children.head?.map (fun e => e.info.text)).getD ""

/-- `SemanticEnricher.enrich` of src/core/index.ts (lines 118-172). -/
def enrich (parsedFiles : List ParsedFile) : SemanticAnalysis :=
  let nodes := parsedFiles.bind (fun pf =>
    (walkList [] pf.ast).filterMap (fun p =>
      if trackedKindNames.contains (kindName p.1.kind) then
        some { kind := kindName p.1.kind, symbol := p.1.info.symbol,
               type := p.1.info.typeText, filePath := pf.filePath,
               astNode := p.1, ancestors := p.2 }
      else none))
  let callGraph := parsedFiles.foldl (fun acc pf =>
    (walkList [] pf.ast).foldl (fun acc2 p =>
      if p.1.kind = TsKind.callExpr then
        let f := pf.filePath ++ "#" ++ enclosingCallableName p.2
        let t := callCallee p.1
        if acc2.any (fun e => e.from_ = f ∧ e.to_ = t) then acc2
        else acc2 ++ [{ from_ := f, to_ := t, filePath := pf.filePath }]
      else acc2) acc) []
  { parsedFiles := parsedFiles, nodes := nodes, callGraph := callGraph }

/-! ## Domain Model Builder (src/unnamed/part_000) -/

/-- The technical class-name suffixes excluded from entity candidacy. -/
def TECHNICAL_SUFFIXES : List String :=
  ["Controller", "Service", "Repository", "Adapter", "Gateway"]

/-- `isTechnicalClass`. -/
def isTechnicalClass (className : String) : Bool :=
  TECHNICAL_SUFFIXES.any (fun suf => jsEndsWith className suf)

/-- `classKey`: file path and byte span. -/
def classKey (c : Ts) : String :=
  c.info.filePath ++ ":" ++ toString c.info.start ++ ":" ++
    toString c.info.stop

/-- `hasEnumState`: some property whose type is an enum. -/
def hasEnumState (c : Ts) : Bool :=
  (classProps c).any (fun p => p.info.typeIsEnum)

/-- `hasInternalIf`: some own method containing an if statement. -/
def hasInternalIf (c : Ts) : Bool :=
  (classMethods c).any (fun m => (descendantsOfKind TsKind.ifStmt m).length > 0)

mutual

/-- Whether the subtree contains an assignment binary expression that has an
if statement among its ancestors within the walked region (the source asks
for any if-statement ancestor of the assignment; ancestors above the method
do not occur in the analysed sources). -/
def anyAssignUnderIf (underIf : Bool) : Ts → Bool
  | Ts.mk k i cs =>
    (underIf && k = TsKind.binaryExpr && assignmentOps.contains i.op) ||
    anyAssignUnderIfList (underIf || k = TsKind.ifStmt) cs

def anyAssignUnderIfList (underIf : Bool) : List Ts → Bool
  | [] => false
  | t :: ts =>
    anyAssignUnderIf underIf t || anyAssignUnderIfList underIf ts

end

/-- `hasConditionalAssignment`: some own method containing an assignment
inside an if statement. -/
def hasConditionalAssignment (c : Ts) : Bool :=
  (classMethods c).any (fun m => anyAssignUnderIfList false m.children)

/-- `getMutatedFieldsAndMethods`: the set of fields assigned through
`this.<field>` in own methods, and the set of method names doing so. -/
def mutatedFieldsAndMethods (c : Ts) : List String × List String :=
  (classMethods c).foldl (fun acc m =>
    (descendantsOfKind TsKind.binaryExpr m).foldl (fun acc2 b =>
      match assignedThisField b with
      | none => acc2
      | some f => (setAdd acc2.1 f, setAdd acc2.2 (methodName m))) acc)
    ([], [])

/-- The mutable (non-readonly) property names of a class, as a set. -/
def mutableFieldsOf (c : Ts) : List String :=
  listToSet (((classProps c).filter (fun p => !p.info.isReadonly)).map propName)

/-- The entity-qualification test of `DomainModelBuilder.build`
(part_000 lines 176-179). -/
def qualifiesAsEntity (c : Ts) : Bool :=
  (mutableFieldsOf c).length > 0 &&
  (mutatedFieldsAndMethods c).2.length > 0 &&
  (hasEnumState c || hasInternalIf c || hasConditionalAssignment c)

/-- `stateFields`: mutated fields that are mutable. -/
def stateFieldsOf (c : Ts) : List String :=
  (mutatedFieldsAndMethods c).1.filter (fun f => (mutableFieldsOf c).contains f)

/-- The entity value pushed for a qualifying class named `n`. -/
def entityOf (c : Ts) (n : String) : DomainEntity :=
  { name := n
    properties := (classProps c).map propName
    methods := (classMethods c).map methodName
    stateFields := stateFieldsOf c
    filePath := c.info.filePath }

/-- `Map.set` on the relations map keyed by `(type, from, to)`: the key
determines the whole relation, so a later `set` stores the same value and
the model skips it. -/
def relAdd (rels : List DomainRelation) (r : DomainRelation) :
    List DomainRelation :=
  if rels.contains r then rels else rels ++ [r]

/-- The MODIFIES relations emitted for a qualifying entity (part_000 lines
193-206), appended to the accumulated relations. -/
def entityModifies (c : Ts) (n : String) (rels : List DomainRelation) :
    List DomainRelation :=
  (classMethods c).foldl (fun acc m =>
    (descendantsOfKind TsKind.binaryExpr m).foldl (fun acc2 b =>
      match assignedThisField b with
      | some f =>
        if (stateFieldsOf c).contains f then
          relAdd acc2
            { type := DomainRelationType.MODIFIES,
              from_ := n ++ "." ++ methodName m, to_ := n ++ "." ++ f }
        else acc2
      | none => acc2) acc) rels

/-- `Map.set` into the class map keyed by `classKey`. -/
def classMapSet (l : List (String × Ts)) (k : String) (v : Ts) :
    List (String × Ts) :=
  if l.any (fun p => p.1 = k) then
    l.map (fun p => if p.1 = k then (k, v) else p)
  else l ++ [(k, v)]

/-- The class nodes collected by `build`, in first-insertion key order. -/
def buildClassNodes (ns : List SemanticNode) : List Ts :=
  (ns.foldl (fun acc sn =>
    if sn.astNode.kind = TsKind.classDecl then
      classMapSet acc (classKey sn.astNode) sn.astNode
    else acc) []).map Prod.snd

/-- `fromForCall` of part_000 (lines 120-133): `<Class>.<method>` when both
are named, else `<filePath>#<functionName>`, else `<filePath>#<anonymous>`;
empty names are falsy in JavaScript. -/
def fromForCall (sn : SemanticNode) : String :=
  let cN := ((sn.ancestors.find? (fun a => a.kind = TsKind.classDecl)).bind
    clsName).getD ""
  let mN := ((sn.ancestors.find? (fun a => a.kind = TsKind.methodDecl)).map
    methodName).getD ""
  if cN ≠ "" ∧ mN ≠ "" then cN ++ "." ++ mN
  else
    let fN := ((sn.ancestors.find? (fun a => a.kind = TsKind.functionDecl)).bind
      (fun f => f.info.name)).getD ""
    if fN ≠ "" then sn.astNode.info.filePath ++ "#" ++ fN
    else sn.astNode.info.filePath ++ "#<anonymous>"

/-- `DomainModel` of contracts.ts. -/
structure DomainModel where
  semanticNodes : List SemanticNode
  entities : List DomainEntity
  relations : List DomainRelation

/-- One step of the entity loop of `build` (part_000 lines 158-207):
skip unnamed and technical classes, push qualifying entities and their
MODIFIES relations. -/
def pass1Step (acc : List DomainEntity × List DomainRelation) (c : Ts) :
    List DomainEntity × List DomainRelation :=
  match clsName c with
  | none => acc
  | some n =>
    if n = "" ∨ isTechnicalClass n then acc
    else if qualifiesAsEntity c then
      (acc.1 ++ [entityOf c n], entityModifies c n acc.2)
    else acc

/-- One step of the call loop of `build` (part_000 lines 209-223): a CALLS
and a USES edge per call expression. -/
def callStep (acc : List DomainRelation) (sn : SemanticNode) :
    List DomainRelation :=
  let f := fromForCall sn
  let t := callCallee sn.astNode
  relAdd (relAdd acc { type := DomainRelationType.CALLS, from_ := f, to_ := t })
    { type := DomainRelationType.USES, from_ := f, to_ := t }

/-- One step of the assignment loop of `build` (part_000 lines 225-242):
a MODIFIES edge for every `this.<field>` assignment inside a named class's
method. -/
def assignStep (acc : List DomainRelation) (sn : SemanticNode) :
    List DomainRelation :=
  if isAssignmentB sn.astNode = false then acc
  else
    match sn.ancestors.find? (fun a => a.kind = TsKind.methodDecl),
      sn.ancestors.find? (fun a => a.kind = TsKind.classDecl),
      assignedThisField sn.astNode with
    | some m, some c, some f =>
      match clsName c with
      | some n =>
        if n = "" then acc
        else relAdd acc
          { type := DomainRelationType.MODIFIES,
            from_ := n ++ "." ++ methodName m, to_ := n ++ "." ++ f }
      | none => acc
    | _, _, _ => acc

/-- `DomainModelBuilder.build` of part_000 (lines 135-250). -/
def build (semanticNodes : List SemanticNode) : DomainModel :=
  let classNodes := buildClassNodes semanticNodes
  let callNodes := semanticNodes.filter
    (fun sn => sn.astNode.kind = TsKind.callExpr)
  let assignmentNodes := semanticNodes.filter
    (fun sn => sn.astNode.kind = TsKind.binaryExpr)
  let pass1 := classNodes.foldl pass1Step ([], [])
  let rels2 := callNodes.foldl callStep pass1.2
  let rels3 := assignmentNodes.foldl assignStep rels2
  { semanticNodes := semanticNodes, entities := pass1.1, relations := rels3 }

/-! ## Business Rule Engine (src/core/index.ts lines 206-592) -/

/-- `isTechnicalLayer` (lines 224-227). -/
def isTechnicalLayer (filePath : String) : Bool :=
  let normalized := jsToLower (jsBackslashToSlash filePath)
  jsIncludes normalized "/controller" || jsIncludes normalized "/infra" ||
    jsIncludes normalized "/adapter"

/-- `hasStateMutation` (lines 269-279): the surrounding method assigns some
state field of the entity. -/
def hasStateMutation (method : Ts) (entity : Option DomainEntity) : Bool :=
  match entity with
  | none => false
  | some e =>
    (descendantsOfKind TsKind.binaryExpr method).any (fun b =>
      match assignedThisField b with
      | some f => e.stateFields.contains f
      | none => false)

/-- `usesEnumState` (lines 281-291): some property access resolving to an
enum declaration or member. -/
def usesEnumState (n : Ts) : Bool :=
  (descendantsOfKind TsKind.propAccess n).any (fun a => a.info.resolvesToEnum)

/-- `isPublicMethod` (lines 293-299). -/
def isPublicMethod (m : Option Ts) : Bool :=
  match m with
  | none => false
  | some mm => mm.info.scope = some "public" || mm.info.scope = none

/-- `isStrongStructuralPattern` (lines 301-318). -/
def isStrongStructuralPattern (t : BusinessRuleType) (node : Ts) : Bool :=
  match t with
  | BusinessRuleType.STATE_TRANSITION => true
  | BusinessRuleType.INVARIANT => hasThrow node || hasReturn node
  | BusinessRuleType.CALCULATION => node.kind = TsKind.binaryExpr
  | BusinessRuleType.POLICY =>
    node.kind = TsKind.ifStmt && (elseStatement node).isSome
  | BusinessRuleType.CONTEXT_RESTRICTION => node.kind = TsKind.ifStmt

/-- `isIsolatedCalculation` (lines 320-324): no `this.<field>` assignment
and no if-statement ancestor. -/
def isIsolatedCalculation (b : Ts) (anc : List Ts) : Bool :=
  !(assignedThisField b).isSome &&
  !(anc.any (fun a => a.kind = TsKind.ifStmt))

/-- The serialized name of a rule type. -/
def ruleTypeName : BusinessRuleType → String
  | BusinessRuleType.INVARIANT => "INVARIANT"
  | BusinessRuleType.POLICY => "POLICY"
  | BusinessRuleType.CALCULATION => "CALCULATION"
  | BusinessRuleType.STATE_TRANSITION => "STATE_TRANSITION"
  | BusinessRuleType.CONTEXT_RESTRICTION => "CONTEXT_RESTRICTION"

/-- `ruleId` (lines 326-328). -/
def ruleIdStr (t : BusinessRuleType) (filePath : String) (start : Nat) :
    String :=
  ruleTypeName t ++ ":" ++ filePath ++ ":" ++ toString start

/-- `createContext` (lines 330-352). -/
def createContext (rule : BusinessRule) (node : Ts) (method : Option Ts)
    (entity : Option DomainEntity) (mutatesStateField hasExplicitThrow
    usesStateEnumFlag isolatedCalculation : Bool) : RuleContext :=
  { inDomainEntity := entity.isSome
    mutatesStateField := mutatesStateField
    hasExplicitThrow := hasExplicitThrow
    inPublicMethod := isPublicMethod method
    usesStateEnum := usesStateEnumFlag
    outsideControllerInfra := !isTechnicalLayer rule.filePath
    strongStructuralPattern := isStrongStructuralPattern rule.type node
    inController := jsIncludes (jsToLower rule.filePath) "controller"
    isolatedCalculation := isolatedCalculation }

/-- `detectContextRestriction` (lines 354-403). -/
def detectContextRestriction (ifNode : Ts) (anc : List Ts)
    (entity : Option DomainEntity) : Bool :=
  let condition := ifCond ifNode
  let hasDateCheck :=
    (descendantsOfKind TsKind.newExpr condition).any
      (fun e => callCallee e = "Date") ||
    (descendantsOfKind TsKind.callExpr condition).any
      (fun c => callCallee c = "Date.now")
  let hasStatusCheck :=
    (descendantsOfKind TsKind.propAccess condition).any
      (fun a => jsToLower (a.info.name.getD "") = "status")
  let hasFeatureFlag :=
    (descendantsOfKind TsKind.propAccess condition).any (fun a =>
      let left := jsToLower ((a.children.head?.map (fun o => o.info.text)).getD "")
      let right := jsToLower (a.info.name.getD "")
      left = "process.env" || jsIncludes right "flag" ||
        jsIncludes right "feature")
  let hasExternalContext :=
    match anc.find? (fun x => x.kind = TsKind.methodDecl) with
    | none => false
    | some m =>
      (descendantsOfKind TsKind.identifier condition).any (fun idn =>
        let text := idn.info.text
        if m.info.params.contains text then true
        else if text = "process" then true
        else if (match entity with
          | some e => e.stateFields.contains text
          | none => false) then false
        else false)
  hasDateCheck || hasStatusCheck || hasFeatureFlag || hasExternalContext

/-- `detectPolicy` (lines 405-412). -/
def detectPolicy (ifNode : Ts) : Bool :=
  let hasElse := (elseStatement ifNode).isSome
  let thenReturns := hasReturn (thenStatement ifNode)
  let elseReturns := match elseStatement ifNode with
    | some e => hasReturn e
    | none => false
  let thenAssignments :=
    (descendantsOfKind TsKind.binaryExpr (thenStatement ifNode)).length
  let elseAssignments := match elseStatement ifNode with
    | some e => (descendantsOfKind TsKind.binaryExpr e).length
    | none => 0
  hasElse || (thenReturns && elseReturns) ||
    (thenAssignments > 0 && elseAssignments > 0)

/-- `detectInvariant` (lines 414-433): early false when the then branch is
no guard clause; with an entity the code then returns
`guardClause || subsequentMutations`. -/
def detectInvariant (ifNode method : Ts) (entity : Option DomainEntity) :
    Bool :=
  let thenStmt := thenStatement ifNode
  let guardClause := hasThrow thenStmt || hasReturn thenStmt
  if guardClause = false then false
  else
    match entity with
    | none => true
    | some e =>
      let subsequentMutations :=
        (descendantsOfKind TsKind.binaryExpr method).any (fun b =>
          match assignedThisField b with
          | some f => e.stateFields.contains f
          | none => false)
      guardClause || subsequentMutations

/-- The INVARIANT side condition as the specification words it: a guard
clause, or, when an owning entity exists, a later state-field mutation in
the surrounding method. -/
def detectInvariantSpec (ifNode method : Ts)
    (entity : Option DomainEntity) : Bool :=
  (hasThrow (thenStatement ifNode) || hasReturn (thenStatement ifNode)) ||
  (entity.isSome && hasStateMutation method entity)

/-- `detectCalculation` (lines 435-457). -/
def detectCalculation (b : Ts) (entity : Option DomainEntity) : Bool :=
  if ["+", "-", "*", "/", "%"].contains b.info.op = false then false
  else
    let hasNumericLiteral :=
      (descendantsOfKind TsKind.numericLit b).length > 0
    let hasEntityProperty := match entity with
      | some e =>
        (descendantsOfKind TsKind.propAccess b).any (fun a =>
          ((a.children.head?.map (fun o => o.info.text)).getD "") = "this" &&
          e.properties.contains (a.info.name.getD ""))
      | none => false
    hasNumericLiteral || hasEntityProperty

/-- The if-statement classification chain of `BusinessRuleEngine.extract`
(lines 474-481): first match wins. -/
def ifRuleType (ifNode method : Ts) (anc : List Ts)
    (entity : Option DomainEntity) : Option BusinessRuleType :=
  if detectInvariant ifNode method entity then
    some BusinessRuleType.INVARIANT
  else if detectContextRestriction ifNode anc entity then
    some BusinessRuleType.CONTEXT_RESTRICTION
  else if detectPolicy ifNode then some BusinessRuleType.POLICY
  else none

/-- `BusinessRuleExtractionInput` of contracts.ts. -/
structure BusinessRuleExtractionInput where
  semanticNodes : List SemanticNode
  domainEntities : List DomainEntity

/-- `Map.set` keyed by rule id: replace in place or append. -/
def mapUpsert (l : List BusinessRule) (r : BusinessRule) :
    List BusinessRule :=
  if l.any (fun x => x.id = r.id) then
    l.map (fun x => if x.id = r.id then r else x)
  else l ++ [r]

/-- The rules contributed by one semantic node in
`BusinessRuleEngine.extract` (lines 464-582). -/
def rulesForNode (entities : List DomainEntity) (sn : SemanticNode) :
    List BusinessRule :=
  let classNode := sn.ancestors.find? (fun a => a.kind = TsKind.classDecl)
  let method := sn.ancestors.find? (fun a => a.kind = TsKind.methodDecl)
  let entity := match classNode.bind clsName with
    | some n => lastWithKey DomainEntity.name entities n
    | none => none
  let methodNameOpt := method.map methodName
  let filePath := sn.filePath
  match method with
  | none => []
  | some m =>
    if sn.astNode.kind = TsKind.ifStmt then
      match ifRuleType sn.astNode m sn.ancestors entity with
      | some t =>
        let baseRule : BusinessRule :=
          { id := ruleIdStr t filePath sn.astNode.info.start
            type := t
            entity := entity.map (fun e => e.name)
            method := methodNameOpt
            filePath := filePath
            condition := (ifCond sn.astNode).info.text
            consequence := (thenStatement sn.astNode).info.text
            astLocation := ⟨sn.astNode.info.start, sn.astNode.info.stop⟩
            confidence := 0 }
        let context := createContext baseRule sn.astNode method entity
          (hasStateMutation m entity) (hasThrow sn.astNode)
          (usesEnumState sn.astNode) false
        [{ baseRule with confidence := calculateConfidence baseRule context }]
      | none => []
    else if sn.astNode.kind = TsKind.binaryExpr then
      let stateField := match entity with
        | some _ => assignedThisField sn.astNode
        | none => none
      match stateField, entity with
      | some f, some e =>
        if e.stateFields.contains f then
          let baseRule : BusinessRule :=
            { id := ruleIdStr BusinessRuleType.STATE_TRANSITION filePath
                sn.astNode.info.start
              type := BusinessRuleType.STATE_TRANSITION
              entity := some e.name
              method := methodNameOpt
              filePath := filePath
              condition := f ++ " assignment"
              consequence := sn.astNode.info.text
              astLocation := ⟨sn.astNode.info.start, sn.astNode.info.stop⟩
              confidence := 0 }
          let context := createContext baseRule sn.astNode method entity
            true (hasThrow m) (usesEnumState sn.astNode) false
          [{ baseRule with
              confidence := calculateConfidence baseRule context }]
        else if detectCalculation sn.astNode entity then
          let baseRule : BusinessRule :=
            { id := ruleIdStr BusinessRuleType.CALCULATION filePath
                sn.astNode.info.start
              type := BusinessRuleType.CALCULATION
              entity := entity.map (fun en => en.name)
              method := methodNameOpt
              filePath := filePath
              condition := ((sn.astNode.children.head?.map
                (fun l => l.info.text)).getD "")
              consequence := sn.astNode.info.text
              astLocation := ⟨sn.astNode.info.start, sn.astNode.info.stop⟩
              confidence := 0 }
          let context := createContext baseRule sn.astNode method entity
            false (hasThrow m) (usesEnumState sn.astNode)
            (isIsolatedCalculation sn.astNode sn.ancestors)
          [{ baseRule with
              confidence := calculateConfidence baseRule context }]
        else []
      | _, _ =>
        if detectCalculation sn.astNode entity then
          let baseRule : BusinessRule :=
            { id := ruleIdStr BusinessRuleType.CALCULATION filePath
                sn.astNode.info.start
              type := BusinessRuleType.CALCULATION
              entity := entity.map (fun en => en.name)
              method := methodNameOpt
              filePath := filePath
              condition := ((sn.astNode.children.head?.map
                (fun l => l.info.text)).getD "")
              consequence := sn.astNode.info.text
              astLocation := ⟨sn.astNode.info.start, sn.astNode.info.stop⟩
              confidence := 0 }
          let context := createContext baseRule sn.astNode method entity
            false (hasThrow m) (usesEnumState sn.astNode)
            (isIsolatedCalculation sn.astNode sn.ancestors)
          [{ baseRule with
              confidence := calculateConfidence baseRule context }]
        else []
    else []

/-- `BusinessRuleEngine.extract`: all contributed rules, deduplicated by
identifier with last-value-wins (lines 584-589). -/
def extract (input : BusinessRuleExtractionInput) : List BusinessRule :=
  (input.semanticNodes.foldl
    (fun acc sn => acc ++ rulesForNode input.domainEntities sn) []).foldl
    mapUpsert []

/-! ## Architectural Analyzer (src/core/architecture/index.ts) -/

/-- The six violation kinds of contracts.ts. -/
inductive ArchitecturalViolationType where
  | DOMAIN_CALLING_INFRA
  | RULE_IN_CONTROLLER
  | ANEMIC_ENTITY
  | FAT_SERVICE
  | SCATTERED_RULE
  | LAYER_VIOLATION
deriving DecidableEq, Repr, Inhabited

/-- `ArchitecturalViolation` of contracts.ts. -/
structure ArchitecturalViolation where
  id : String
  type : ArchitecturalViolationType
  message : String
  filePath : Option String
  relatedIds : List String
deriving DecidableEq, Repr, Inhabited

/-- `RuleAnalysis` of contracts.ts. -/
structure RuleAnalysis where
  domainModel : DomainModel
  rules : List BusinessRule

/-- `hasLayerSegment` of architecture/index.ts (lines 7-9). -/
def hasLayerSegment (filePath segment : String) : Bool :=
  (jsSplitSlash (jsBackslashToSlash filePath)).contains segment

/-- DOMAIN_CALLING_INFRA violations (architecture/index.ts lines 19-28). -/
def domainCallingInfra (relations : List DomainRelation) :
    List ArchitecturalViolation :=
  relations.foldl (fun acc rel =>
    if rel.type = DomainRelationType.CALLS ∧
        jsIncludes rel.from_ "domain" = true ∧
        jsIncludes (jsToLower rel.to_) "infra" = true then
      acc ++ [{ id := "violation:domain-calling-infra:" ++ rel.from_
                type := ArchitecturalViolationType.DOMAIN_CALLING_INFRA
                message := "Domain layer calling infrastructure component."
                filePath := none
                relatedIds := [rel.from_, rel.to_] }]
    else acc) []

/-- RULE_IN_CONTROLLER violations (lines 30-40). -/
def rulesInController (rules : List BusinessRule) :
    List ArchitecturalViolation :=
  rules.foldl (fun acc rule =>
    if jsEndsWith (rule.method.getD "") "Controller" = true ∨
        jsIncludes rule.filePath "controller" = true then
      acc ++ [{ id := "violation:rule-in-controller:" ++ rule.id
                type := ArchitecturalViolationType.RULE_IN_CONTROLLER
                message := "Business rule found in controller layer."
                filePath := some rule.filePath
                relatedIds := [rule.id] }]
    else acc) []

/-- ANEMIC_ENTITY violations (lines 42-55). -/
def anemicEntities (entities : List DomainEntity)
    (relations : List DomainRelation) : List ArchitecturalViolation :=
  entities.foldl (fun acc entity =>
    if entity.stateFields.length > 0 ∧
        (relations.filter (fun rel =>
          rel.type = DomainRelationType.MODIFIES ∧
          jsStartsWith rel.from_ (entity.name ++ ".") = true)).length = 0 then
      acc ++ [{ id := "violation:anemic-entity:" ++ entity.name
                type := ArchitecturalViolationType.ANEMIC_ENTITY
                message := "Entity " ++ entity.name ++
                  " has state but no detected state mutations."
                filePath := some entity.filePath
                relatedIds := [entity.name] }]
    else acc) []

/-- FAT_SERVICE violations (lines 57-80). -/
def fatServices (semanticNodes : List SemanticNode) :
    List ArchitecturalViolation :=
  ((semanticNodes.filter (fun n => n.kind = "ClassDeclaration")).map
    (fun n => n.astNode)).filter (fun n => n.kind = TsKind.classDecl)
  |>.foldl (fun acc c =>
    if jsEndsWith ((clsName c).getD "") "Service" = true ∧
        8 ≤ (classMethods c).length then
      acc ++ [{ id := "violation:fat-service:" ++ c.info.filePath ++ ":" ++
                  (clsName c).getD ""
                type := ArchitecturalViolationType.FAT_SERVICE
                message := "Service " ++ (clsName c).getD "<unknown>" ++
                  " exposes " ++ toString (classMethods c).length ++
                  " methods."
                filePath := some c.info.filePath
                relatedIds := [(clsName c).getD c.info.filePath] }]
    else acc) []

/-- LAYER_VIOLATION violations (lines 82-104). -/
def layerViolations (semanticNodes : List SemanticNode) :
    List ArchitecturalViolation :=
  ((semanticNodes.filter (fun n => n.kind = "ImportDeclaration")).map
    (fun n => n.astNode)).filter (fun n => n.kind = TsKind.importDecl)
  |>.foldl (fun acc imp =>
    if hasLayerSegment imp.info.filePath "domain" = true ∧
        jsIncludes imp.info.moduleSpecifier "infra" = true then
      acc ++ [{ id := "violation:layer:" ++ imp.info.filePath
                type := ArchitecturalViolationType.LAYER_VIOLATION
                message := "Domain module importing infrastructure module."
                filePath := some imp.info.filePath
                relatedIds := [imp.info.filePath] }]
    else acc) []

/-- The `(entity, type)` rule grouping of lines 106-112: a keyed insertion
list of file-path sets. -/
def ruleGroupsOf (rules : List BusinessRule) : List (String × List String) :=
  rules.foldl (fun acc rule =>
    let key := (rule.entity.getD "none") ++ ":" ++ ruleTypeName rule.type
    if acc.any (fun p => p.1 = key) then
      acc.map (fun p => if p.1 = key then (key, setAdd p.2 rule.filePath) else p)
    else acc ++ [(key, [rule.filePath])]) []

/-- SCATTERED_RULE violations (lines 114-124). -/
def scatteredRules (rules : List BusinessRule) :
    List ArchitecturalViolation :=
  (ruleGroupsOf rules).foldl (fun acc p =>
    if 3 ≤ p.2.length then
      acc ++ [{ id := "violation:scattered-rule:" ++ p.1
                type := ArchitecturalViolationType.SCATTERED_RULE
                message := "Rule pattern " ++ p.1 ++ " appears across " ++
                  toString p.2.length ++ " files."
                filePath := none
                relatedIds := p.2 }]
    else acc) []

/-- `ArchitecturalAnalyzer.analyze` of architecture/index.ts: the six
sections in push order. -/
def analyze (analysis : RuleAnalysis) : List ArchitecturalViolation :=
  domainCallingInfra analysis.domainModel.relations ++
  rulesInController analysis.rules ++
  anemicEntities analysis.domainModel.entities
    analysis.domainModel.relations ++
  fatServices analysis.domainModel.semanticNodes ++
  layerViolations analysis.domainModel.semanticNodes ++
  scatteredRules analysis.rules

/-! ## Specification-side predicates for comparison -/

/-- The entity qualification as the specification words it: named and
non-technical, at least one non-readonly property, at least one own method
assigning `this.<field>` to a mutable property, and a conditional signal
(enum-typed property, a method containing a conditional, or an assignment
to a mutable property inside a conditional branch). -/
def qualifiesSpec (c : Ts) : Bool :=
  (match clsName c with
    | some n => n ≠ "" && !isTechnicalClass n
    | none => false) &&
  ((classProps c).any (fun p => !p.info.isReadonly)) &&
  ((classMethods c).any (fun m =>
    (descendantsOfKind TsKind.binaryExpr m).any (fun b =>
      match assignedThisField b with
      | some f => (mutableFieldsOf c).contains f
      | none => false))) &&
  (hasEnumState c || hasInternalIf c ||
   ((classMethods c).any (fun m =>
     (descendantsOfKind TsKind.ifStmt m).any (fun i =>
       (descendantsOfKind TsKind.binaryExpr i).any (fun b =>
         match assignedThisField b with
         | some f => (mutableFieldsOf c).contains f
         | none => false)))))

/-- The entity qualification as the code implements it, in spec-style
vocabulary: the assignment may target any `this.<field>`, mutable or not,
and the conditional-assignment signal accepts any assignment under an if. -/
def qualifiesAmended (c : Ts) : Bool :=
  ((classProps c).any (fun p => !p.info.isReadonly)) &&
  ((classMethods c).any (fun m =>
    (descendantsOfKind TsKind.binaryExpr m).any (fun b =>
      (assignedThisField b).isSome))) &&
  (hasEnumState c || hasInternalIf c || hasConditionalAssignment c)

/-- The entity produced for one collected class node, when it qualifies. -/
def entityIfQualifies (c : Ts) : Option DomainEntity :=
  match clsName c with
  | none => none
  | some n =>
    if n = "" ∨ isTechnicalClass n then none
    else if qualifiesAsEntity c then some (entityOf c n) else none

/-- The provenance every MODIFIES relation of a built domain model has:
`<Class>.<method>` to `<Class>.<field>` for an assignment `this.<field>`,
either found inside a method of a collected class that qualifies (with the
field a state field), or carried by an assignment semantic node whose
ancestor chain names the method and the class. -/
def modifiesShape (ns : List SemanticNode) (rel : DomainRelation) : Prop :=
  ∃ cName mName f,
    rel.from_ = cName ++ "." ++ mName ∧ rel.to_ = cName ++ "." ++ f ∧
    ((∃ c ∈ buildClassNodes ns, clsName c = some cName ∧
        ∃ mth ∈ classMethods c, methodName mth = mName ∧
          ∃ b ∈ descendantsOfKind TsKind.binaryExpr mth,
            assignedThisField b = some f ∧
            (stateFieldsOf c).contains f = true) ∨
     (∃ sn ∈ ns, sn.astNode.kind = TsKind.binaryExpr ∧
        assignedThisField sn.astNode = some f ∧
        (∃ mth, sn.ancestors.find? (fun a => a.kind = TsKind.methodDecl) =
          some mth ∧ methodName mth = mName) ∧
        (∃ c, sn.ancestors.find? (fun a => a.kind = TsKind.classDecl) =
          some c ∧ clsName c = some cName)))

/-! ## Concrete AST inputs for the remaining claims -/

/-- The `this` keyword as an expression node. -/
def tsThis : Ts := Ts.mk TsKind.other { text := "this" } []

/-- A parsed file whose only node is an enum declaration. -/
def c5file : ParsedFile :=
  ⟨"src/e.ts",
   [Ts.mk TsKind.enumDecl { name := some "Status", filePath := "src/e.ts" } []]⟩

/-- The semantic node the enricher emits for the enum declaration. -/
def c5node : SemanticNode :=
  (enrich [c5file]).nodes.head?.getD
    { kind := "", symbol := none, type := none, filePath := "",
      astNode := default, ancestors := [] }

/-- `this.x` as the left side of an assignment. -/
def c3left : Ts := Ts.mk TsKind.propAccess
  { name := some "x", text := "this.x" } [tsThis]

/-- The assignment `this.x = 1` inside a technical class. -/
def c3binary : Ts := Ts.mk TsKind.binaryExpr
  { op := "=", text := "this.x = 1", filePath := "src/s.ts",
    start := 10, stop := 20 }
  [c3left, Ts.mk TsKind.numericLit { text := "1" } []]

/-- The method of the technical class holding the assignment. -/
def c3method : Ts := Ts.mk TsKind.methodDecl { name := some "m" } [c3binary]

/-- A class whose name carries a technical suffix: never an entity. -/
def c3class : Ts := Ts.mk TsKind.classDecl
  { name := some "FooService", filePath := "src/s.ts", start := 0, stop := 30 }
  [c3method]

/-- The assignment's semantic node, with its ancestor chain. -/
def c3sn : SemanticNode :=
  { kind := "BinaryExpression", symbol := none, type := none,
    filePath := "src/s.ts", astNode := c3binary,
    ancestors := [c3method, c3class] }

/-- The MODIFIES relation the builder emits for the technical class. -/
def c3rel : DomainRelation :=
  { type := DomainRelationType.MODIFIES, from_ := "FooService.m",
    to_ := "FooService.x" }

/-- A mutable property `x` that no method ever assigns. -/
def c4prop : Ts := Ts.mk TsKind.propertyDecl { name := some "x" } []

/-- The assignment `this.y = 1` to an undeclared (hence non-mutable)
field. -/
def c4binary : Ts := Ts.mk TsKind.binaryExpr
  { op := "=", text := "this.y = 1" }
  [Ts.mk TsKind.propAccess { name := some "y", text := "this.y" } [tsThis],
   Ts.mk TsKind.numericLit { text := "1" } []]

/-- An if statement whose then branch performs the assignment. -/
def c4if : Ts := Ts.mk TsKind.ifStmt { text := "if (z) this.y = 1" }
  [Ts.mk TsKind.identifier { text := "z" } [],
   Ts.mk TsKind.other { text := "this.y = 1;" } [c4binary]]

/-- The method holding the conditional assignment. -/
def c4method : Ts := Ts.mk TsKind.methodDecl { name := some "m" } [c4if]

/-- A class that qualifies per the code (mutable `x`, mutator assigning the
unrelated `y`, conditional signal) but not per the specification (no
assignment to a mutable property). -/
def c4class : Ts := Ts.mk TsKind.classDecl
  { name := some "A", filePath := "src/a.ts", start := 0, stop := 40 }
  [c4prop, c4method]

/-- The class declaration's semantic node. -/
def c4sn : SemanticNode :=
  { kind := "ClassDeclaration", symbol := none, type := none,
    filePath := "src/a.ts", astNode := c4class, ancestors := [] }

/-- Scenario S1: `Cart` with mutable `items` and a method that only
reads. -/
def cartClass : Ts := Ts.mk TsKind.classDecl
  { name := some "Cart", filePath := "src/cart.ts", start := 0, stop := 50 }
  [Ts.mk TsKind.propertyDecl { name := some "items" } [],
   Ts.mk TsKind.methodDecl { name := some "describe" }
     [Ts.mk TsKind.returnStmt { text := "return this.items.length" } []]]

/-- The Cart class declaration's semantic node. -/
def cartSn : SemanticNode :=
  { kind := "ClassDeclaration", symbol := none, type := none,
    filePath := "src/cart.ts", astNode := cartClass, ancestors := [] }

/-- Condition `y` of the C8 counterexample if statement. -/
def c8cond : Ts := Ts.mk TsKind.identifier { text := "y" } []

/-- The assignment `this.count = 1` in the then branch (no throw, no
return). -/
def c8thenAssign : Ts := Ts.mk TsKind.binaryExpr
  { op := "=", text := "this.count = 1" }
  [Ts.mk TsKind.propAccess { name := some "count", text := "this.count" }
    [tsThis],
   Ts.mk TsKind.numericLit { text := "1" } []]

/-- The then branch wrapping the assignment. -/
def c8then : Ts := Ts.mk TsKind.other { text := "this.count = 1;" }
  [c8thenAssign]

/-- An if statement that is no guard clause. -/
def c8if : Ts := Ts.mk TsKind.ifStmt
  { text := "if (y) this.count = 1;", filePath := "src/o.ts",
    start := 5, stop := 28 }
  [c8cond, c8then]

/-- The later state-field mutation `this.status = \"SHIPPED\"`. -/
def c8mut : Ts := Ts.mk TsKind.binaryExpr
  { op := "=", text := "this.status = \x22SHIPPED\x22" }
  [Ts.mk TsKind.propAccess { name := some "status", text := "this.status" }
    [tsThis],
   Ts.mk TsKind.other { text := "\x22SHIPPED\x22" } []]

/-- The method holding the if statement and the later mutation. -/
def c8method : Ts := Ts.mk TsKind.methodDecl { name := some "m" }
  [c8if, c8mut]

/-- The class around the C8 counterexample. -/
def c8class : Ts := Ts.mk TsKind.classDecl
  { name := some "Order", filePath := "src/o.ts", start := 0, stop := 60 }
  [c8method]

/-- The owning entity, with `status` as its only state field. -/
def c8entity : DomainEntity :=
  { name := "Order", properties := ["status", "count"], methods := ["m"],
    stateFields := ["status"], filePath := "src/o.ts" }

/-- The if statement's semantic node. -/
def c8sn : SemanticNode :=
  { kind := "IfStatement", symbol := none, type := none,
    filePath := "src/o.ts", astNode := c8if,
    ancestors := [c8method, c8class] }

/-- The extraction input of the C8 counterexample. -/
def c8input : BusinessRuleExtractionInput := ⟨[c8sn], [c8entity]⟩

/-- The `Order` class of the C10 witness: one mutable property `status`
assigned inside a conditional by `ship()`. -/
def c10class : Ts := Ts.mk TsKind.classDecl
  { name := some "Order", filePath := "src/order.ts", start := 0, stop := 80 }
  [Ts.mk TsKind.propertyDecl { name := some "status" } [],
   Ts.mk TsKind.methodDecl { name := some "ship" }
     [Ts.mk TsKind.ifStmt { text := "if (x) this.status = \x22SHIPPED\x22;" }
       [Ts.mk TsKind.identifier { text := "x" } [],
        Ts.mk TsKind.other { text := "this.status = \x22SHIPPED\x22;" }
          [Ts.mk TsKind.binaryExpr
            { op := "=", text := "this.status = \x22SHIPPED\x22" }
            [Ts.mk TsKind.propAccess
              { name := some "status", text := "this.status" } [tsThis],
             Ts.mk TsKind.other { text := "\x22SHIPPED\x22" } []]]]]]

/-- The class declaration's semantic node for the C10 witness. -/
def c10sn : SemanticNode :=
  { kind := "ClassDeclaration", symbol := none, type := none,
    filePath := "src/order.ts", astNode := c10class, ancestors := [] }

/-- The semantic-node list of the C10 witness. -/
def c10ns : List SemanticNode := [c10sn]

/-- The entity the builder derives from the C10 witness class. -/
def c10entity : DomainEntity :=
  { name := "Order", properties := ["status"], methods := ["ship"],
    stateFields := ["status"], filePath := "src/order.ts" }

/-- A rule placed in a controller file, so the analyzer emits some
non-anemic violation for the witness. -/
def c10ctrlRule : BusinessRule :=
  { id := "POLICY:src/controller/c.ts:1", type := BusinessRuleType.POLICY,
    entity := none, method := none, filePath := "src/controller/c.ts",
    condition := "x", consequence := "y", astLocation := ⟨0, 1⟩,
    confidence := 0 }

/-- The RULE_IN_CONTROLLER violation the analyzer emits for the witness. -/
def c10viol : ArchitecturalViolation :=
  { id := "violation:rule-in-controller:POLICY:src/controller/c.ts:1",
    type := ArchitecturalViolationType.RULE_IN_CONTROLLER,
    message := "Business rule found in controller layer.",
    filePath := some "src/controller/c.ts",
    relatedIds := ["POLICY:src/controller/c.ts:1"] }

/-! ## Order lemmas for the identifier sort -/

theorem charListLe_total (as bs : List Char) :
    charListLe as bs = true ∨ charListLe bs as = true := by
  induction as generalizing bs with
  | nil => exact Or.inl rfl
  | cons a as ih =>
    cases bs with
    | nil => exact Or.inr rfl
    | cons b bs =>
      by_cases hab : a = b
      · subst hab
        simpa [charListLe] using ih bs
      · rcases lt_or_gt_of_ne hab with h | h
        · exact Or.inl (by simp [charListLe, hab, h])
        · exact Or.inr (by simp [charListLe, Ne.symm hab, h])

theorem charListLe_trans (as bs cs : List Char)
    (h1 : charListLe as bs = true) (h2 : charListLe bs cs = true) :
    charListLe as cs = true := by
  induction as generalizing bs cs with
  | nil => rfl
  | cons a as ih =>
    cases bs with
    | nil => simp [charListLe] at h1
    | cons b bs =>
      cases cs with
      | nil => simp [charListLe] at h2
      | cons c cs =>
        by_cases hab : a = b
        · subst hab
          by_cases hbc : a = c
          · subst hbc
            simp [charListLe] at h1 h2 ⊢
            exact ih bs cs h1 h2
          · simpa [charListLe, hbc] using (by simpa [charListLe, hbc] using h2)
        · by_cases hbc : b = c
          · subst hbc
            simpa [charListLe, hab] using h1
          · simp [charListLe, hab] at h1
            simp [charListLe, hbc] at h2
            have hac : a < c := lt_trans h1 h2
            have : a ≠ c := ne_of_lt hac
            simp [charListLe, this, hac]

instance : IsTotal String strLe := ⟨fun a b => charListLe_total a.data b.data⟩

instance : IsTrans String strLe :=
  ⟨fun a b c h1 h2 => charListLe_trans a.data b.data c.data h1 h2⟩

/-! ## Arithmetic lemmas about round2 -/

theorem stepIf (x : ℚ) (b : Bool) (d : ℚ) :
    (if b then x + d else x) = x + (if b then d else 0) := by
  cases b <;> simp

theorem round2_clamped_nonneg (z : ℚ) : 0 ≤ round2 (max 0 (min 1 z)) := by
  have h0 : (0 : ℚ) ≤ max 0 (min 1 z) := le_max_left _ _
  have hf : (0 : ℤ) ≤ ⌊(max 0 (min 1 z)) * 100 + 1/2⌋ := by
    rw [Int.le_floor]
    push_cast
    nlinarith
  unfold round2
  positivity

theorem round2_clamped_le_one (z : ℚ) : round2 (max 0 (min 1 z)) ≤ 1 := by
  have h1 : max 0 (min 1 z) ≤ 1 := max_le (by norm_num) (min_le_left _ _)
  have hf : ⌊(max 0 (min 1 z)) * 100 + 1/2⌋ ≤ 100 := by
    have hb : (max 0 (min 1 z)) * 100 + 1/2 ≤ 201/2 := by nlinarith
    calc ⌊(max 0 (min 1 z)) * 100 + 1/2⌋ ≤ ⌊(201/2 : ℚ)⌋ := Int.floor_le_floor hb
      _ = 100 := by norm_num [Int.floor_eq_iff]
  unfold round2
  rw [div_le_one (by norm_num)]
  exact_mod_cast hf

theorem round2_ge_85 (z : ℚ) (h : (0.85 : ℚ) ≤ z) : (0.85 : ℚ) ≤ round2 z := by
  have hf : (85 : ℤ) ≤ ⌊z * 100 + 1/2⌋ := by
    rw [Int.le_floor]
    push_cast
    nlinarith
  unfold round2
  have hcast : (85 : ℚ) ≤ (⌊z * 100 + 1/2⌋ : ℚ) := by exact_mod_cast hf
  rw [show (0.85 : ℚ) = 85/100 by norm_num]
  exact (div_le_div_right (by norm_num)).mpr hcast

/-- Every value produced by `round2` is an exact multiple of 1/100. -/
theorem round2_twoDecimal (q : ℚ) : ∃ n : ℤ, round2 q = (n : ℚ) / 100 :=
  ⟨⌊q * 100 + 1/2⌋, rfl⟩

end ImpactAnalysis

namespace ImpactAnalysis

/-- C1: every extracted rule's confidence equals the additive-then-capped
value the specification describes, lies in [0,1], and is an exact multiple
of 1/100 (two decimals). -/
theorem confidence_matches_spec_and_bounded
    (rule : BusinessRule) (context : RuleContext) :
    calculateConfidence rule context = confidenceSpec rule.type context ∧
    0 ≤ calculateConfidence rule context ∧
    calculateConfidence rule context ≤ 1 ∧
    ∃ n : ℤ, calculateConfidence rule context = (n : ℚ) / 100 := by
  refine ⟨?_, round2_clamped_nonneg _, round2_clamped_le_one _,
    round2_twoDecimal _⟩
  obtain ⟨a, b, c, d, e2, f2, g, h, i2⟩ := context
  simp only [calculateConfidence, confidenceSpec, stepIf, zero_add]

/-! ## Lemmas about the JavaScript collection models -/

theorem lastWithKey_aux {α : Type} (key : α → String) (k : String)
    (l : List α) (acc : Option α) :
    l.foldl (fun acc x => if key x = k then some x else acc) acc = none ↔
      acc = none ∧ ∀ x ∈ l, key x ≠ k := by
  induction l generalizing acc with
  | nil => simp
  | cons v vs ih =>
    simp only [List.foldl_cons, ih, List.mem_cons]
    by_cases hv : key v = k
    · simp [hv]
    · constructor
      · rintro ⟨h1, h2⟩
        rw [if_neg hv] at h1
        exact ⟨h1, fun x hx => hx.elim (fun he => he ▸ hv) (h2 x)⟩
      · rintro ⟨h1, h2⟩
        exact ⟨by rw [if_neg hv]; exact h1, fun x hx => h2 x (Or.inr hx)⟩

theorem lastWithKey_eq_none_iff {α : Type} (key : α → String)
    (l : List α) (k : String) :
    lastWithKey key l k = none ↔ ∀ x ∈ l, key x ≠ k := by
  unfold lastWithKey
  rw [lastWithKey_aux]
  simp

theorem setAdd_nodup (l : List String) (x : String) (h : l.Nodup) :
    (setAdd l x).Nodup := by
  unfold setAdd
  split
  · exact h
  · rename_i hc
    rw [List.nodup_append]
    exact ⟨h, List.nodup_singleton x,
      by simpa [List.disjoint_singleton] using fun hx => hc (by simpa using hx)⟩

theorem setAdd_toFinset (l : List String) (x : String) :
    (setAdd l x).toFinset = insert x l.toFinset := by
  unfold setAdd
  split
  · rename_i hc
    have hx : x ∈ l.toFinset := by simpa using hc
    simp [Finset.insert_eq_self.mpr hx]
  · simp [List.toFinset_append]
    rw [Finset.union_comm]
    simp [Finset.insert_eq]

theorem foldl_filtered_setAdd (p : String → Bool) (l : List String)
    (acc : List String) (hacc : acc.Nodup) :
    (l.foldl (fun acc v => if p v then setAdd acc v else acc) acc).Nodup ∧
    (l.foldl (fun acc v => if p v then setAdd acc v else acc) acc).toFinset =
      acc.toFinset ∪ (l.filter p).toFinset := by
  induction l generalizing acc with
  | nil => simpa using hacc
  | cons v vs ih =>
    simp only [List.foldl_cons]
    by_cases hv : p v = true
    · obtain ⟨h1, h2⟩ := ih (setAdd acc v) (setAdd_nodup acc v hacc)
      refine ⟨by simpa [hv] using h1, ?_⟩
      rw [if_pos hv, h2, setAdd_toFinset, List.filter_cons_of_pos hv]
      simp [List.toFinset_cons, Finset.insert_union, Finset.union_insert]
    · obtain ⟨h1, h2⟩ := ih acc hacc
      refine ⟨by simpa [hv] using h1, ?_⟩
      rw [if_neg hv, h2, List.filter_cons_of_neg (by simpa using hv)]

/-! ## Theorems about the Impact Simulation Engine -/

theorem map_mkNode_id (tf : String → ImpactNodeType) (rs : ℚ)
    (L : List String) :
    L.map (ImpactNode.id ∘ fun id =>
      ({ id := id, type := tf id, riskScore := rs } : ImpactNode)) = L := by
  induction L with
  | nil => rfl
  | cons x xs ih => simpa using ih

/-- C7: every successful simulation of a rule without an owning entity has a
global risk score of at least 0.85, and every successful simulation yields a
global risk score inside [0,1] that is an exact multiple of 1/100 (two
decimals). -/
theorem riskScore_floor_and_bounds (ruleId : String)
    (input : ImpactSimulationInput) (res : ImpactSimulationResult)
    (h : simulate ruleId input = Except.ok res) :
    (res.rootRule.entity = none → (0.85 : ℚ) ≤ res.globalRiskScore) ∧
    0 ≤ res.globalRiskScore ∧ res.globalRiskScore ≤ 1 ∧
    ∃ n : ℤ, res.globalRiskScore = (n : ℚ) / 100 := by
  unfold simulate at h
  cases hm : lastWithKey BusinessRule.id input.businessRules ruleId with
  | none => rw [hm] at h; exact absurd h (by simp)
  | some r =>
    rw [hm] at h
    injection h with h2
    subst h2
    refine ⟨fun hent => ?_, round2_clamped_nonneg _, round2_clamped_le_one _,
      round2_twoDecimal _⟩
    have hent' : r.entity = none := hent
    refine round2_ge_85 _ ?_
    rw [hent']
    simp only [if_pos rfl]
    exact le_trans (le_min (by norm_num) (le_max_right _ _)) (le_max_right _ _)

/-- C7 witness: the floor and the bounds evaluated on the concrete witness
simulation (a lone POLICY rule without entity). -/
theorem riskScore_floor_and_bounds_witness :
    ((0.85 : ℚ) ≤ w2res.globalRiskScore) ∧
    0 ≤ w2res.globalRiskScore ∧ w2res.globalRiskScore ≤ 1 ∧
    ∃ n : ℤ, w2res.globalRiskScore = (n : ℚ) / 100 :=
  ⟨(riskScore_floor_and_bounds "POLICY:src/a.ts:1" w2input w2res rfl).1 rfl,
   (riskScore_floor_and_bounds "POLICY:src/a.ts:1" w2input w2res rfl).2⟩

/-- C2: in every successful simulation the impacted-node list starts with
the root rule's identifier, contains it exactly once, lists the remaining
identifiers in ascending order, and gives every node the global risk
score. -/
theorem impacted_list_shape (ruleId : String)
    (input : ImpactSimulationInput) (res : ImpactSimulationResult)
    (h : simulate ruleId input = Except.ok res) :
    (res.impactedNodes.map ImpactNode.id).head? = some res.rootRule.id ∧
    (res.impactedNodes.map ImpactNode.id).count res.rootRule.id = 1 ∧
    List.Sorted strLe (res.impactedNodes.map ImpactNode.id).tail ∧
    ∀ node ∈ res.impactedNodes, node.riskScore = res.globalRiskScore := by
  unfold simulate at h
  cases hm : lastWithKey BusinessRule.id input.businessRules ruleId with
  | none => rw [hm] at h; exact absurd h (by simp)
  | some r =>
    rw [hm] at h
    injection h with h2
    subst h2
    refine ⟨rfl, ?_, ?_, ?_⟩
    · simp only [List.map_cons, List.map_map, Function.comp]
      rw [List.count_cons_self]
      have hzero : (List.insertionSort strLe
          ((impactedAfterInjections r input.domainRelations).filter
            (fun id => id ≠ r.id))).count r.id = 0 := by
        rw [(List.perm_insertionSort strLe _).count_eq]
        refine List.count_eq_zero.mpr ?_
        intro hmem
        rcases List.mem_filter.mp hmem with ⟨-, hpred⟩
        simp at hpred
      rw [map_mkNode_id]
      omega
    · simp only [List.map_cons, List.map_map, List.tail_cons]
      rw [map_mkNode_id]
      exact List.sorted_insertionSort _ _
    · intro node hn
      simp only [List.mem_cons, List.mem_map] at hn
      rcases hn with rfl | ⟨x, hx, rfl⟩ <;> rfl

/-- C2 witness: the impacted-list shape evaluated on the concrete witness
simulation. -/
theorem impacted_list_shape_witness :
    (w2res.impactedNodes.map ImpactNode.id).head? = some w2res.rootRule.id ∧
    (w2res.impactedNodes.map ImpactNode.id).count w2res.rootRule.id = 1 ∧
    List.Sorted strLe (w2res.impactedNodes.map ImpactNode.id).tail ∧
    ∀ node ∈ w2res.impactedNodes, node.riskScore = w2res.globalRiskScore :=
  impacted_list_shape "POLICY:src/a.ts:1" w2input w2res rfl

/-- C9: a rule identifier that matches no supplied business rule makes the
simulation abort with the descriptive error naming the identifier, and a
matching identifier never aborts for this reason. -/
theorem unknown_rule_is_fatal (ruleId : String)
    (input : ImpactSimulationInput) :
    ((∀ r ∈ input.businessRules, r.id ≠ ruleId) →
      simulate ruleId input = Except.error ("Rule not found: " ++ ruleId)) ∧
    ((∃ r ∈ input.businessRules, r.id = ruleId) →
      ∃ res, simulate ruleId input = Except.ok res) := by
  constructor
  · intro hnone
    have hm : lastWithKey BusinessRule.id input.businessRules ruleId = none :=
      (lastWithKey_eq_none_iff BusinessRule.id input.businessRules ruleId).mpr
        hnone
    unfold simulate
    rw [hm]
  · intro hsome
    cases hm : lastWithKey BusinessRule.id input.businessRules ruleId with
    | none =>
      obtain ⟨r, hr, hid⟩ := hsome
      exact absurd hid
        ((lastWithKey_eq_none_iff BusinessRule.id input.businessRules
          ruleId).mp hm r hr)
    | some r =>
      cases hs : simulate ruleId input with
      | ok res => exact ⟨res, rfl⟩
      | error e =>
        exfalso
        unfold simulate at hs
        rw [hm] at hs
        exact absurd hs (by simp)

/-- C9 witness: the fatal error on an unknown identifier and the success on
a known identifier, on the concrete witness input. -/
theorem unknown_rule_is_fatal_witness :
    simulate "nope" w2input = Except.error ("Rule not found: " ++ "nope") ∧
    ∃ res, simulate "POLICY:src/a.ts:1" w2input = Except.ok res :=
  ⟨(unknown_rule_is_fatal "nope" w2input).1
      (by intro r hr; rcases List.mem_singleton.mp hr with rfl; decide),
   (unknown_rule_is_fatal "POLICY:src/a.ts:1" w2input).2
      ⟨w2rule, List.mem_singleton_self _, rfl⟩⟩

/-- C6 counterexample: on a lone CALCULATION rule whose file path is
"main.py", the impacted set contains no path-like identifier, yet the
explanation reports one affected file (the engine injects the root rule's
file path beyond the impacted set), contradicting the claim that
affectedFiles counts only impacted identifiers that look like a path. -/
theorem affectedFiles_counterexample :
    simulate "CALCULATION:main.py:5" c6input = Except.ok c6res ∧
    c6res.explanation.affectedFiles = 1 ∧
    (c6res.impactedNodes.map ImpactNode.id).countP isFileLike = 0 :=
  ⟨rfl, rfl, rfl⟩

/-- C6 amended: affectedFiles counts the distinct impacted identifiers that
look like a path together with the root rule's file path (when non-empty),
and affectedEntities counts the distinct impacted identifiers naming a
known entity together with the root rule's entity (when present). -/
theorem explanation_counts (ruleId : String)
    (input : ImpactSimulationInput) (res : ImpactSimulationResult)
    (h : simulate ruleId input = Except.ok res) :
    res.explanation.affectedFiles =
      (((impactedAfterInjections res.rootRule input.domainRelations).filter
          isFileLike).toFinset ∪
        (if res.rootRule.filePath = "" then ∅
          else {res.rootRule.filePath})).card ∧
    res.explanation.affectedEntities =
      (((impactedAfterInjections res.rootRule input.domainRelations).filter
          (fun v => (input.domainEntities.map (fun e => e.name)).contains v)).toFinset ∪
        (match res.rootRule.entity with
          | some e => {e}
          | none => ∅)).card := by
  unfold simulate at h
  cases hm : lastWithKey BusinessRule.id input.businessRules ruleId with
  | none => rw [hm] at h; exact absurd h (by simp)
  | some r =>
    rw [hm] at h
    injection h with h2
    subst h2
    constructor
    · show (if r.filePath = "" then _ else setAdd _ r.filePath).length = _
      obtain ⟨hnd, hfin⟩ := foldl_filtered_setAdd isFileLike
        (impactedAfterInjections r input.domainRelations) [] (List.nodup_nil)
      by_cases hfp : r.filePath = ""
      · rw [if_pos hfp, if_pos hfp]
        rw [← List.toFinset_card_of_nodup hnd, hfin]
        simp
      · rw [if_neg hfp, if_neg hfp]
        rw [← List.toFinset_card_of_nodup (setAdd_nodup _ _ hnd),
          setAdd_toFinset, hfin]
        simp [Finset.union_comm, Finset.insert_eq]
    · show (match r.entity with
        | some e => setAdd _ e
        | none => _).length = _
      obtain ⟨hnd, hfin⟩ := foldl_filtered_setAdd
        (fun v => (input.domainEntities.map (fun e => e.name)).contains v)
        (impactedAfterInjections r input.domainRelations) [] (List.nodup_nil)
      cases hent : r.entity with
      | none =>
        rw [← List.toFinset_card_of_nodup hnd, hfin]
        simp
      | some e =>
        rw [← List.toFinset_card_of_nodup (setAdd_nodup _ _ hnd),
          setAdd_toFinset, hfin]
        simp [Finset.union_comm, Finset.insert_eq]

/-- C6 amended witness: the affected-files and affected-entities counts of
the concrete witness simulation match the amended description. -/
theorem explanation_counts_witness :
    w2res.explanation.affectedFiles =
      (((impactedAfterInjections w2res.rootRule w2input.domainRelations).filter
          isFileLike).toFinset ∪
        (if w2res.rootRule.filePath = "" then ∅
          else {w2res.rootRule.filePath})).card ∧
    w2res.explanation.affectedEntities =
      (((impactedAfterInjections w2res.rootRule w2input.domainRelations).filter
          (fun v => (w2input.domainEntities.map (fun e => e.name)).contains v)).toFinset ∪
        (match w2res.rootRule.entity with
          | some e => {e}
          | none => ∅)).card :=
  explanation_counts "POLICY:src/a.ts:1" w2input w2res rfl

/-! ## Theorems about the Semantic Enricher -/

/-- C5 counterexample: a file holding one enum declaration makes the
enricher emit a node of kind EnumDeclaration, which is outside the
ten-element kind set the specification lists. -/
theorem enrich_kinds_counterexample :
    (enrich [c5file]).nodes.map SemanticNode.kind = ["EnumDeclaration"] ∧
    specTrackedKindNames.contains "EnumDeclaration" = false :=
  ⟨rfl, rfl⟩

/-- C5 amended: every node the enricher emits has one of the eleven tracked
kind names (the specification's ten plus EnumDeclaration). -/
theorem enrich_kinds_closed (files : List ParsedFile) (sn : SemanticNode)
    (h : sn ∈ (enrich files).nodes) : sn.kind ∈ trackedKindNames := by
  simp only [enrich, List.mem_bind, List.mem_filterMap] at h
  obtain ⟨pf, hpf, p, hp, hif⟩ := h
  by_cases hc : trackedKindNames.contains (kindName p.1.kind) = true
  · rw [if_pos hc] at hif
    cases hif
    simpa using hc
  · rw [if_neg hc] at hif
    exact absurd hif (by simp)

/-- C5 witness: the amended closed-kind property evaluated on the enum
node emitted for the concrete file. -/
theorem enrich_kinds_closed_witness : c5node.kind ∈ trackedKindNames :=
  enrich_kinds_closed [c5file] c5node (List.Mem.head _)

/-! ## Theorems about the Domain Model Builder -/

/-- C3 counterexample: a technical class FooService assigning `this.x`
yields a MODIFIES relation although the entities set is empty, so the
relation originates from no qualifying domain entity. -/
theorem build_modifies_counterexample :
    (build [c3sn]).relations = [c3rel] ∧ (build [c3sn]).entities = [] :=
  ⟨rfl, rfl⟩

/-- C4 counterexample: class A (mutable property `x` never assigned, method
assigning the non-mutable `this.y` inside an if) appears in the entities
set although the specification's qualification (assignment to a mutable
property) rejects it. -/
theorem entity_qualification_counterexample :
    (build [c4sn]).entities.map DomainEntity.name = ["A"] ∧
    qualifiesSpec c4class = false :=
  ⟨rfl, rfl⟩

/-- C8 counterexample: an if statement with no throw or return in its then
branch, inside a method that later mutates the entity's state field: the
specification's INVARIANT side condition holds, yet the engine emits no
rule at all for the node. -/
theorem invariant_mutation_counterexample :
    detectInvariantSpec c8if c8method (some c8entity) = true ∧
    ifRuleType c8if c8method [c8method, c8class] (some c8entity) = none ∧
    extract c8input = [] :=
  ⟨rfl, rfl, rfl⟩

/-- C8 amended: classification of an if statement follows the priority
INVARIANT, CONTEXT_RESTRICTION, POLICY with no rule when none matches, and
the INVARIANT side condition is exactly the guard clause (then branch
throws or returns): the later-mutation disjunct is only consulted once the
guard clause already holds, so it never extends the classification. -/
theorem invariant_guard_only :
    (∀ (ifNode method : Ts) (entity : Option DomainEntity),
      detectInvariant ifNode method entity =
        (hasThrow (thenStatement ifNode) || hasReturn (thenStatement ifNode))) ∧
    (∀ (ifNode method : Ts) (anc : List Ts) (entity : Option DomainEntity),
      ifRuleType ifNode method anc entity =
        (if hasThrow (thenStatement ifNode) || hasReturn (thenStatement ifNode)
        then some BusinessRuleType.INVARIANT
        else if detectContextRestriction ifNode anc entity then
          some BusinessRuleType.CONTEXT_RESTRICTION
        else if detectPolicy ifNode then some BusinessRuleType.POLICY
        else none)) ∧
    (∀ (entities : List DomainEntity) (sn : SemanticNode) (m : Ts),
      sn.astNode.kind = TsKind.ifStmt →
      sn.ancestors.find? (fun a => a.kind = TsKind.methodDecl) = some m →
      (rulesForNode entities sn).map (fun r => r.type) =
        (ifRuleType sn.astNode m sn.ancestors
          (match ((sn.ancestors.find?
              (fun a => a.kind = TsKind.classDecl)).bind clsName) with
            | some n => lastWithKey DomainEntity.name entities n
            | none => none)).toList) := by
  have hdet : ∀ (ifNode method : Ts) (entity : Option DomainEntity),
      detectInvariant ifNode method entity =
        (hasThrow (thenStatement ifNode) || hasReturn (thenStatement ifNode)) := by
    intro ifNode method entity
    unfold detectInvariant
    cases hg : (hasThrow (thenStatement ifNode) ||
        hasReturn (thenStatement ifNode)) with
    | false => simp only [Bool.or_eq_true] at hg ⊢; simp [hg]
    | true =>
      cases entity <;>
        simp only [Bool.or_eq_true] at hg ⊢ <;> simp [hg]
  refine ⟨hdet, ?_, ?_⟩
  · intro ifNode method anc entity
    unfold ifRuleType
    rw [hdet]
  · intro entities sn m hk hfind
    unfold rulesForNode
    rw [hfind, hk]
    simp only [if_pos rfl]
    cases ifRuleType sn.astNode m sn.ancestors
        (match ((sn.ancestors.find?
            (fun a => a.kind = TsKind.classDecl)).bind clsName) with
          | some n => lastWithKey DomainEntity.name entities n
          | none => none) with
    | none => rfl
    | some t => rfl

/-- C8 amended witness: the emission conjunct evaluated at the concrete
counterexample node (where the engine emits nothing), and the other two
conjuncts at the same concrete arguments. -/
theorem invariant_guard_only_witness :
    detectInvariant c8if c8method (some c8entity) =
      (hasThrow (thenStatement c8if) || hasReturn (thenStatement c8if)) ∧
    (rulesForNode [c8entity] c8sn).map (fun r => r.type) =
      (ifRuleType c8sn.astNode c8method c8sn.ancestors
        (match ((c8sn.ancestors.find?
            (fun a => a.kind = TsKind.classDecl)).bind clsName) with
          | some n => lastWithKey DomainEntity.name [c8entity] n
          | none => none)).toList :=
  ⟨invariant_guard_only.1 c8if c8method (some c8entity),
   invariant_guard_only.2.2 [c8entity] c8sn c8method rfl rfl⟩

/-! ## Lemmas about the builder's set and map folds -/

theorem mem_setAdd {x y : String} {l : List String} :
    x ∈ setAdd l y ↔ x ∈ l ∨ x = y := by
  unfold setAdd
  split
  · rename_i h
    have hy : y ∈ l := List.mem_of_elem_eq_true h
    constructor
    · exact Or.inl
    · rintro (hx | rfl)
      · exact hx
      · exact hy
  · simp

theorem setAdd_ne_nil (l : List String) (x : String) : setAdd l x ≠ [] := by
  unfold setAdd
  split
  · rename_i h
    exact List.ne_nil_of_mem (List.mem_of_elem_eq_true h)
  · simp

theorem foldl_setAdd_eq_nil (l : List String) (acc : List String) :
    l.foldl setAdd acc = [] ↔ acc = [] ∧ l = [] := by
  induction l generalizing acc with
  | nil => simp
  | cons x xs ih =>
    simp only [List.foldl_cons, ih]
    constructor
    · rintro ⟨h1, -⟩
      exact absurd h1 (setAdd_ne_nil acc x)
    · rintro ⟨-, h2⟩
      cases h2

theorem listToSet_eq_nil (l : List String) : listToSet l = [] ↔ l = [] := by
  unfold listToSet
  rw [foldl_setAdd_eq_nil]
  simp

theorem inner_mut_snd_nil (m : Ts) (bs : List Ts)
    (acc : List String × List String) :
    (bs.foldl (fun acc2 b => match assignedThisField b with
      | none => acc2
      | some f => (setAdd acc2.1 f, setAdd acc2.2 (methodName m))) acc).2 =
      [] ↔
    acc.2 = [] ∧ ∀ b ∈ bs, assignedThisField b = none := by
  induction bs generalizing acc with
  | nil => simp
  | cons b bs ih =>
    simp only [List.foldl_cons]
    cases hb : assignedThisField b with
    | none => rw [ih]; simp [hb]
    | some f =>
      rw [ih]
      constructor
      · rintro ⟨h1, -⟩
        exact absurd h1 (setAdd_ne_nil _ _)
      · rintro ⟨-, h2⟩
        exact absurd (h2 b (List.mem_cons_self b bs)) (by simp [hb])

theorem outer_mut_snd_nil (c : Ts) :
    (mutatedFieldsAndMethods c).2 = [] ↔
    ∀ m ∈ classMethods c, ∀ b ∈ descendantsOfKind TsKind.binaryExpr m,
      assignedThisField b = none := by
  unfold mutatedFieldsAndMethods
  have aux : ∀ (ms : List Ts) (acc : List String × List String),
      (ms.foldl (fun acc m =>
        (descendantsOfKind TsKind.binaryExpr m).foldl
          (fun acc2 b => match assignedThisField b with
            | none => acc2
            | some f => (setAdd acc2.1 f, setAdd acc2.2 (methodName m)))
          acc) acc).2 = [] ↔
      acc.2 = [] ∧ ∀ m ∈ ms, ∀ b ∈ descendantsOfKind TsKind.binaryExpr m,
        assignedThisField b = none := by
    intro ms
    induction ms with
    | nil => simp
    | cons m ms ih =>
      intro acc
      simp only [List.foldl_cons, ih, inner_mut_snd_nil]
      constructor
      · rintro ⟨⟨h1, h2⟩, h3⟩
        exact ⟨h1, by
          intro m' hm'
          rcases List.mem_cons.mp hm' with rfl | hm'
          · exact h2
          · exact h3 m' hm'⟩
      · rintro ⟨h1, h2⟩
        exact ⟨⟨h1, h2 m (List.mem_cons_self m ms)⟩,
          fun m' hm' => h2 m' (List.mem_cons_of_mem m hm')⟩
  rw [aux]
  simp

theorem inner_mut_fst_mem (m : Ts) (bs : List Ts)
    (acc : List String × List String) (x : String) :
    x ∈ (bs.foldl (fun acc2 b => match assignedThisField b with
      | none => acc2
      | some f => (setAdd acc2.1 f, setAdd acc2.2 (methodName m))) acc).1 →
    x ∈ acc.1 ∨ ∃ b ∈ bs, assignedThisField b = some x := by
  induction bs generalizing acc with
  | nil => intro h; exact Or.inl h
  | cons b bs ih =>
    intro h
    simp only [List.foldl_cons] at h
    cases hb : assignedThisField b with
    | none =>
      rw [hb] at h
      rcases ih acc h with h1 | ⟨b', hb', hf⟩
      · exact Or.inl h1
      · exact Or.inr ⟨b', List.mem_cons_of_mem b hb', hf⟩
    | some f =>
      rw [hb] at h
      rcases ih _ h with h1 | ⟨b', hb', hf⟩
      · rcases mem_setAdd.mp h1 with h2 | rfl
        · exact Or.inl h2
        · exact Or.inr ⟨b, List.mem_cons_self b bs, hb⟩
      · exact Or.inr ⟨b', List.mem_cons_of_mem b hb', hf⟩

theorem outer_mut_fst_mem (c : Ts) (x : String) :
    x ∈ (mutatedFieldsAndMethods c).1 →
    ∃ m ∈ classMethods c, ∃ b ∈ descendantsOfKind TsKind.binaryExpr m,
      assignedThisField b = some x := by
  unfold mutatedFieldsAndMethods
  have aux : ∀ (ms : List Ts) (acc : List String × List String),
      x ∈ (ms.foldl (fun acc m =>
        (descendantsOfKind TsKind.binaryExpr m).foldl
          (fun acc2 b => match assignedThisField b with
            | none => acc2
            | some f => (setAdd acc2.1 f, setAdd acc2.2 (methodName m)))
          acc) acc).1 →
      x ∈ acc.1 ∨ ∃ m ∈ ms, ∃ b ∈ descendantsOfKind TsKind.binaryExpr m,
        assignedThisField b = some x := by
    intro ms
    induction ms with
    | nil => intro acc h; exact Or.inl h
    | cons m ms ih =>
      intro acc h
      simp only [List.foldl_cons] at h
      rcases ih _ h with h1 | ⟨m', hm', b', hb', hf⟩
      · rcases inner_mut_fst_mem m _ acc x h1 with h2 | ⟨b, hb, hf⟩
        · exact Or.inl h2
        · exact Or.inr ⟨m, List.mem_cons_self m ms, b, hb, hf⟩
      · exact Or.inr ⟨m', List.mem_cons_of_mem m hm', b', hb', hf⟩
  intro h
  rcases aux (classMethods c) ([], []) h with h1 | h2
  · simp at h1
  · exact h2

/-! ## Theorems about entity qualification -/

theorem pass1_fst (l : List Ts)
    (acc : List DomainEntity × List DomainRelation) :
    (l.foldl pass1Step acc).1 = acc.1 ++ l.filterMap entityIfQualifies := by
  induction l generalizing acc with
  | nil => simp
  | cons c cs ih =>
    simp only [List.foldl_cons, List.filterMap_cons, pass1Step]
    cases hc : clsName c with
    | none =>
      have he : entityIfQualifies c = none := by
        simp [entityIfQualifies, hc]
      rw [he]
      dsimp only
      exact ih _
    | some n =>
      by_cases hcond : (n = "" ∨ isTechnicalClass n = true)
      · have he : entityIfQualifies c = none := by
          simp only [entityIfQualifies, hc]
          rw [if_pos hcond]
        rw [he]
        dsimp only
        rw [if_pos hcond]
        exact ih _
      · by_cases hq : qualifiesAsEntity c = true
        · have he : entityIfQualifies c = some (entityOf c n) := by
            simp only [entityIfQualifies, hc]
            rw [if_neg hcond, if_pos hq]
          rw [he]
          dsimp only
          rw [if_neg hcond, if_pos hq, ih]
          simp
        · have he : entityIfQualifies c = none := by
            simp only [entityIfQualifies, hc]
            rw [if_neg hcond, if_neg hq]
          rw [he]
          dsimp only
          rw [if_neg hcond, if_neg hq]
          exact ih _

/-- C4 amended: the entities set of a built domain model consists exactly
of the collected classes passing the code's qualification, which demands an
assignment to any `this.<field>` (mutable or not) rather than to a mutable
property; scenario S1's Cart still does not qualify. -/
theorem entity_qualification_amended :
    (∀ ns, (build ns).entities =
      (buildClassNodes ns).filterMap entityIfQualifies) ∧
    (∀ c, qualifiesAsEntity c = qualifiesAmended c) ∧
    (build [cartSn]).entities = [] := by
  refine ⟨?_, ?_, rfl⟩
  · intro ns
    show (List.foldl _ ([], []) (buildClassNodes ns)).1 = _
    rw [pass1_fst]
    simp
  · intro c
    unfold qualifiesAsEntity qualifiesAmended
    have h1 : (decide (0 < (mutableFieldsOf c).length)) =
        (classProps c).any (fun p => !p.info.isReadonly) := by
      rw [Bool.eq_iff_iff]
      simp only [decide_eq_true_eq, List.length_pos, List.any_eq_true]
      unfold mutableFieldsOf
      rw [Ne, listToSet_eq_nil, List.map_eq_nil_iff]
      constructor
      · intro h
        rcases List.exists_mem_of_ne_nil _ h with ⟨p, hp⟩
        exact ⟨p, List.mem_of_mem_filter hp,
          by simpa using List.of_mem_filter hp⟩
      · rintro ⟨p, hp, hro⟩ hnil
        have hpm : p ∈ ((classProps c).filter fun p => !p.info.isReadonly) :=
          List.mem_filter.mpr ⟨hp, by simpa using hro⟩
        rw [hnil] at hpm
        cases hpm
    have h2 : (decide (0 < (mutatedFieldsAndMethods c).2.length)) =
        (classMethods c).any (fun m =>
          (descendantsOfKind TsKind.binaryExpr m).any (fun b =>
            (assignedThisField b).isSome)) := by
      rw [Bool.eq_iff_iff]
      simp only [decide_eq_true_eq, List.length_pos, List.any_eq_true]
      rw [Ne, outer_mut_snd_nil]
      constructor
      · intro h
        by_contra hno
        push_neg at hno
        apply h
        intro m hm b hb
        by_contra hsome
        exact hno m hm b hb (by
          cases ha : assignedThisField b
          · exact absurd ha hsome
          · simp [ha])
      · rintro ⟨m, hm, b, hb, hsome⟩ hall
        rw [hall m hm b hb] at hsome
        cases hsome
    rw [h1, h2]

/-! ## Lemmas about the relation folds -/

theorem mem_relAdd {rel r : DomainRelation} {rels : List DomainRelation} :
    rel ∈ relAdd rels r ↔ rel ∈ rels ∨ rel = r := by
  unfold relAdd
  split
  · rename_i h
    have hr : r ∈ rels := List.mem_of_elem_eq_true h
    constructor
    · exact Or.inl
    · rintro (hx | rfl)
      · exact hx
      · exact hr
  · simp

theorem relAdd_self (rels : List DomainRelation) (r : DomainRelation) :
    r ∈ relAdd rels r := mem_relAdd.mpr (Or.inr rfl)

theorem relAdd_mono {rel : DomainRelation} (rels : List DomainRelation)
    (r : DomainRelation) (h : rel ∈ rels) : rel ∈ relAdd rels r :=
  mem_relAdd.mpr (Or.inl h)

theorem foldl_inv {α β : Type} (f : List α → β → List α) (Q : α → Prop)
    (l : List β)
    (h : ∀ b ∈ l, ∀ acc x, x ∈ f acc b → x ∈ acc ∨ Q x) :
    ∀ acc x, x ∈ l.foldl f acc → x ∈ acc ∨ Q x := by
  induction l with
  | nil => intro acc x hx; exact Or.inl hx
  | cons b bs ih =>
    intro acc x hx
    rcases ih (fun b' hb' => h b' (List.mem_cons_of_mem b hb')) (f acc b) x
        hx with h1 | h2
    · exact h b (List.mem_cons_self b bs) acc x h1
    · exact Or.inr h2

theorem foldl_mono {α β : Type} (f : List α → β → List α) (l : List β)
    (hmono : ∀ acc b x, x ∈ acc → x ∈ f acc b) :
    ∀ acc x, x ∈ acc → x ∈ l.foldl f acc := by
  induction l with
  | nil => intro acc x hx; exact hx
  | cons b bs ih =>
    intro acc x hx
    exact ih (f acc b) x (hmono acc b x hx)

theorem foldl_reach {α β : Type} (f : List α → β → List α) (l : List β)
    (b : β) (hb : b ∈ l) (target : α)
    (hmono : ∀ acc b' x, x ∈ acc → x ∈ f acc b')
    (hadd : ∀ acc, target ∈ f acc b) :
    ∀ acc, target ∈ l.foldl f acc := by
  induction l with
  | nil => cases hb
  | cons c cs ih =>
    intro acc
    rcases List.mem_cons.mp hb with rfl | hb'
    · exact foldl_mono f cs hmono (f acc b) target (hadd acc)
    · exact ih hb' (f acc c)

theorem mem_entityModifies {rel : DomainRelation} (c : Ts) (n : String)
    (rels : List DomainRelation) (h : rel ∈ entityModifies c n rels) :
    rel ∈ rels ∨
    ∃ mth ∈ classMethods c, ∃ b ∈ descendantsOfKind TsKind.binaryExpr mth,
      ∃ f, assignedThisField b = some f ∧
        (stateFieldsOf c).contains f = true ∧
        rel = { type := DomainRelationType.MODIFIES,
                from_ := n ++ "." ++ methodName mth,
                to_ := n ++ "." ++ f } := by
  unfold entityModifies at h
  refine foldl_inv _ (fun x =>
    ∃ mth ∈ classMethods c, ∃ b ∈ descendantsOfKind TsKind.binaryExpr mth,
      ∃ f, assignedThisField b = some f ∧
        (stateFieldsOf c).contains f = true ∧
        x = { type := DomainRelationType.MODIFIES,
              from_ := n ++ "." ++ methodName mth,
              to_ := n ++ "." ++ f }) _ ?_ rels rel h
  intro mth hmth acc x hx
  refine (foldl_inv _ (fun x =>
    ∃ b ∈ descendantsOfKind TsKind.binaryExpr mth,
      ∃ f, assignedThisField b = some f ∧
        (stateFieldsOf c).contains f = true ∧
        x = { type := DomainRelationType.MODIFIES,
              from_ := n ++ "." ++ methodName mth,
              to_ := n ++ "." ++ f }) _ ?_ acc x hx).imp_right
    (fun hw => by
      obtain ⟨b, hb, f, hf, hsf, hx2⟩ := hw
      exact ⟨mth, hmth, b, hb, f, hf, hsf, hx2⟩)
  intro b hb acc2 y hy
  cases ha : assignedThisField b with
  | none =>
    rw [ha] at hy
    exact Or.inl hy
  | some f =>
    rw [ha] at hy
    dsimp only at hy
    by_cases hsf : (stateFieldsOf c).contains f = true
    · rw [if_pos hsf] at hy
      rcases mem_relAdd.mp hy with h1 | rfl
      · exact Or.inl h1
      · exact Or.inr ⟨b, hb, f, ha, hsf, rfl⟩
    · rw [if_neg hsf] at hy
      exact Or.inl hy

theorem entityModifies_mono {rel : DomainRelation} (c : Ts) (n : String)
    (rels : List DomainRelation) (h : rel ∈ rels) :
    rel ∈ entityModifies c n rels := by
  unfold entityModifies
  refine foldl_mono _ _ ?_ rels rel h
  intro acc mth x hx
  refine foldl_mono _ _ ?_ acc x hx
  intro acc2 b y hy
  cases ha : assignedThisField b with
  | none => exact hy
  | some f =>
    dsimp only
    by_cases hsf : (stateFieldsOf c).contains f = true
    · rw [if_pos hsf]; exact relAdd_mono acc2 _ hy
    · rw [if_neg hsf]; exact hy

theorem entityModifies_reach (c : Ts) (n : String) (mth b : Ts) (f : String)
    (hm : mth ∈ classMethods c)
    (hb : b ∈ descendantsOfKind TsKind.binaryExpr mth)
    (hf : assignedThisField b = some f)
    (hsf : (stateFieldsOf c).contains f = true)
    (rels : List DomainRelation) :
    ({ type := DomainRelationType.MODIFIES,
       from_ := n ++ "." ++ methodName mth,
       to_ := n ++ "." ++ f } : DomainRelation) ∈ entityModifies c n rels := by
  unfold entityModifies
  refine foldl_reach _ _ mth hm _ ?_ ?_ rels
  · intro acc mth' x hx
    refine foldl_mono _ _ ?_ acc x hx
    intro acc2 b' y hy
    cases ha : assignedThisField b' with
    | none => exact hy
    | some f' =>
      dsimp only
      by_cases hsf' : (stateFieldsOf c).contains f' = true
      · rw [if_pos hsf']; exact relAdd_mono acc2 _ hy
      · rw [if_neg hsf']; exact hy
  · intro acc
    refine foldl_reach _ _ b hb _ ?_ ?_ acc
    · intro acc2 b' y hy
      cases ha : assignedThisField b' with
      | none => exact hy
      | some f' =>
        dsimp only
        by_cases hsf' : (stateFieldsOf c).contains f' = true
        · rw [if_pos hsf']; exact relAdd_mono acc2 _ hy
        · rw [if_neg hsf']; exact hy
    · intro acc2
      rw [hf]
      dsimp only
      rw [if_pos hsf]
      exact relAdd_self acc2 _

theorem foldl_snd_inv {α β γ : Type} (f : γ × List α → β → γ × List α)
    (Q : α → Prop) (l : List β)
    (h : ∀ b ∈ l, ∀ acc x, x ∈ (f acc b).2 → x ∈ acc.2 ∨ Q x) :
    ∀ acc x, x ∈ (l.foldl f acc).2 → x ∈ acc.2 ∨ Q x := by
  induction l with
  | nil => intro acc x hx; exact Or.inl hx
  | cons b bs ih =>
    intro acc x hx
    rcases ih (fun b' hb' => h b' (List.mem_cons_of_mem b hb')) (f acc b) x
        hx with h1 | h2
    · exact h b (List.mem_cons_self b bs) acc x h1
    · exact Or.inr h2

theorem foldl_preserves {α β : Type} (f : α → β → α) (P : α → Prop)
    (l : List β) (h : ∀ acc b, P acc → P (f acc b)) :
    ∀ acc, P acc → P (l.foldl f acc) := by
  induction l with
  | nil => intro acc hP; exact hP
  | cons b bs ih => intro acc hP; exact ih (f acc b) (h acc b hP)

theorem callStep_inv (acc : List DomainRelation) (sn : SemanticNode)
    (r : DomainRelation) (h : r ∈ callStep acc sn) :
    r ∈ acc ∨ r.type = DomainRelationType.CALLS ∨
      r.type = DomainRelationType.USES := by
  unfold callStep at h
  rcases mem_relAdd.mp h with h1 | rfl
  · rcases mem_relAdd.mp h1 with h2 | rfl
    · exact Or.inl h2
    · exact Or.inr (Or.inl rfl)
  · exact Or.inr (Or.inr rfl)

theorem assignStep_inv (acc : List DomainRelation) (sn : SemanticNode)
    (r : DomainRelation) (h : r ∈ assignStep acc sn) :
    r ∈ acc ∨
    ∃ m c nm f,
      sn.ancestors.find? (fun a => a.kind = TsKind.methodDecl) = some m ∧
      sn.ancestors.find? (fun a => a.kind = TsKind.classDecl) = some c ∧
      clsName c = some nm ∧ assignedThisField sn.astNode = some f ∧
      r = { type := DomainRelationType.MODIFIES,
            from_ := nm ++ "." ++ methodName m, to_ := nm ++ "." ++ f } := by
  unfold assignStep at h
  by_cases hA : isAssignmentB sn.astNode = false
  · rw [if_pos hA] at h; exact Or.inl h
  · rw [if_neg hA] at h
    cases o1 : sn.ancestors.find? (fun a => a.kind = TsKind.methodDecl) with
    | none => rw [o1] at h; exact Or.inl h
    | some m =>
      rw [o1] at h
      cases o2 : sn.ancestors.find? (fun a => a.kind = TsKind.classDecl) with
      | none => rw [o2] at h; exact Or.inl h
      | some c =>
        rw [o2] at h
        cases o3 : assignedThisField sn.astNode with
        | none => rw [o3] at h; exact Or.inl h
        | some f =>
          rw [o3] at h
          dsimp only at h
          cases o4 : clsName c with
          | none => rw [o4] at h; exact Or.inl h
          | some nm =>
            rw [o4] at h
            dsimp only at h
            by_cases hn : nm = ""
            · rw [if_pos hn] at h; exact Or.inl h
            · rw [if_neg hn] at h
              rcases mem_relAdd.mp h with h1 | rfl
              · exact Or.inl h1
              · exact Or.inr ⟨m, c, nm, f, rfl, rfl, o4, rfl, rfl⟩

theorem pass1Step_snd_inv (acc : List DomainEntity × List DomainRelation)
    (c : Ts) (r : DomainRelation) (h : r ∈ (pass1Step acc c).2) :
    r ∈ acc.2 ∨
    ∃ n, clsName c = some n ∧
      ∃ mth ∈ classMethods c, ∃ b ∈ descendantsOfKind TsKind.binaryExpr mth,
        ∃ f, assignedThisField b = some f ∧
          (stateFieldsOf c).contains f = true ∧
          r = { type := DomainRelationType.MODIFIES,
                from_ := n ++ "." ++ methodName mth,
                to_ := n ++ "." ++ f } := by
  unfold pass1Step at h
  cases o : clsName c with
  | none => rw [o] at h; exact Or.inl h
  | some n =>
    rw [o] at h
    dsimp only at h
    by_cases h1 : (n = "" ∨ isTechnicalClass n = true)
    · rw [if_pos h1] at h; exact Or.inl h
    · rw [if_neg h1] at h
      by_cases h2 : qualifiesAsEntity c = true
      · rw [if_pos h2] at h
        rcases mem_entityModifies c n acc.2 h with h3 | ⟨mth, hm, b, hb, f, hf, hsf, hr⟩
        · exact Or.inl h3
        · exact Or.inr ⟨n, rfl, mth, hm, b, hb, f, hf, hsf, hr⟩
      · rw [if_neg h2] at h; exact Or.inl h

/-- C3 amended: every MODIFIES relation of a built domain model is
`<Class>.<method>` to `<Class>.<field>` for a `this.<field>` assignment in
that method, emitted either for a collected qualifying class (state-field
assignments) or for any assignment semantic node inside a named class; the
class need not be in the entities set. -/
theorem modifies_shape (ns : List SemanticNode) (rel : DomainRelation)
    (hmem : rel ∈ (build ns).relations)
    (htype : rel.type = DomainRelationType.MODIFIES) :
    modifiesShape ns rel := by
  have hstep1 : ∀ c ∈ buildClassNodes ns,
      ∀ (acc : List DomainEntity × List DomainRelation) r,
      r ∈ (pass1Step acc c).2 → r ∈ acc.2 ∨ modifiesShape ns r := by
    intro c hc acc r hr
    rcases pass1Step_snd_inv acc c r hr with h3 |
      ⟨n, o, mth, hm, b, hb, f, hf, hsf, hr2⟩
    · exact Or.inl h3
    · refine Or.inr ⟨n, methodName mth, f, ?_, ?_, Or.inl
        ⟨c, hc, o, mth, hm, rfl, b, hb, hf, hsf⟩⟩
      · rw [hr2]
      · rw [hr2]
  have hstep3 : ∀ sn ∈ ns.filter
      (fun sn => sn.astNode.kind = TsKind.binaryExpr),
      ∀ (acc : List DomainRelation) r,
      r ∈ assignStep acc sn → r ∈ acc ∨ modifiesShape ns r := by
    intro sn hsn acc r hr
    rcases assignStep_inv acc sn r hr with h3 |
      ⟨m, c, nm, f, o1, o2, o4, o3, hr2⟩
    · exact Or.inl h3
    · have hsn' := List.mem_filter.mp hsn
      refine Or.inr ⟨nm, methodName m, f, ?_, ?_, Or.inr
        ⟨sn, hsn'.1, by simpa using hsn'.2, o3, ⟨m, o1, rfl⟩, ⟨c, o2, o4⟩⟩⟩
      · rw [hr2]
      · rw [hr2]
  have hmem' : rel ∈ (ns.filter
      (fun sn => sn.astNode.kind = TsKind.binaryExpr)).foldl assignStep
      ((ns.filter (fun sn => sn.astNode.kind = TsKind.callExpr)).foldl
        callStep ((buildClassNodes ns).foldl pass1Step ([], [])).2) := hmem
  rcases foldl_inv assignStep (modifiesShape ns) _ hstep3 _ rel hmem'
    with h2 | hq
  · rcases foldl_inv callStep
        (fun r => r.type = DomainRelationType.CALLS ∨
          r.type = DomainRelationType.USES) _
        (fun sn _ acc r hr => callStep_inv acc sn r hr) _ rel h2
      with h1 | hq
    · rcases foldl_snd_inv pass1Step (modifiesShape ns) _ hstep1 _ rel h1
        with h0 | hq
      · cases h0
      · exact hq
    · rw [htype] at hq
      rcases hq with h | h <;> cases h
  · exact hq

/-- C3 amended witness: the provenance of the concrete MODIFIES relation
emitted for the technical class FooService. -/
theorem modifies_shape_witness : modifiesShape [c3sn] c3rel :=
  modifies_shape [c3sn] c3rel (by decide) rfl

/-! ## Theorems about the Architectural Analyzer on built models -/

theorem callStep_mono (acc : List DomainRelation) (sn : SemanticNode)
    (r : DomainRelation) (h : r ∈ acc) : r ∈ callStep acc sn := by
  unfold callStep
  exact relAdd_mono _ _ (relAdd_mono _ _ h)

theorem assignStep_mono (acc : List DomainRelation) (sn : SemanticNode)
    (r : DomainRelation) (h : r ∈ acc) : r ∈ assignStep acc sn := by
  unfold assignStep
  by_cases hA : isAssignmentB sn.astNode = false
  · rw [if_pos hA]; exact h
  · rw [if_neg hA]
    cases o1 : sn.ancestors.find? (fun a => a.kind = TsKind.methodDecl) with
    | none => exact h
    | some m =>
      cases o2 : sn.ancestors.find? (fun a => a.kind = TsKind.classDecl) with
      | none => exact h
      | some c =>
        cases o3 : assignedThisField sn.astNode with
        | none => exact h
        | some f =>
          dsimp only
          cases o4 : clsName c with
          | none => exact h
          | some nm =>
            dsimp only
            by_cases hn : nm = ""
            · rw [if_pos hn]; exact h
            · rw [if_neg hn]; exact relAdd_mono _ _ h

theorem pass1Step_preserves (acc : List DomainEntity × List DomainRelation)
    (c : Ts)
    (hInv : ∀ e ∈ acc.1, e.stateFields ≠ [] → ∃ rel ∈ acc.2,
      rel.type = DomainRelationType.MODIFIES ∧
      jsStartsWith rel.from_ (e.name ++ ".") = true) :
    ∀ e ∈ (pass1Step acc c).1, e.stateFields ≠ [] →
      ∃ rel ∈ (pass1Step acc c).2,
        rel.type = DomainRelationType.MODIFIES ∧
        jsStartsWith rel.from_ (e.name ++ ".") = true := by
  unfold pass1Step
  cases o : clsName c with
  | none => exact hInv
  | some n =>
    dsimp only
    by_cases h1 : (n = "" ∨ isTechnicalClass n = true)
    · rw [if_pos h1]; exact hInv
    · rw [if_neg h1]
      by_cases h2 : qualifiesAsEntity c = true
      · rw [if_pos h2]
        intro e he hsf
        rcases List.mem_append.mp he with he1 | he2
        · rcases hInv e he1 hsf with ⟨rel, hrel, hty, hpre⟩
          exact ⟨rel, entityModifies_mono c n acc.2 hrel, hty, hpre⟩
        · rcases List.mem_singleton.mp he2 with rfl
          have hsf' : stateFieldsOf c ≠ [] := hsf
          rcases List.exists_mem_of_ne_nil _ hsf' with ⟨f, hf⟩
          have hf2 : f ∈ (mutatedFieldsAndMethods c).1.filter
              (fun f => (mutableFieldsOf c).contains f) := hf
          have hmem1 : f ∈ (mutatedFieldsAndMethods c).1 :=
            List.mem_of_mem_filter hf2
          rcases outer_mut_fst_mem c f hmem1 with ⟨mth, hm, b, hb, hfb⟩
          refine ⟨⟨DomainRelationType.MODIFIES,
              n ++ "." ++ methodName mth, n ++ "." ++ f⟩,
            entityModifies_reach c n mth b f hm hb hfb
              (List.elem_eq_true_of_mem hf) acc.2, rfl, ?_⟩
          show jsStartsWith (n ++ "." ++ methodName mth)
            ((entityOf c n).name ++ ".") = true
          simp [jsStartsWith, entityOf]
      · rw [if_neg h2]; exact hInv

/-- Every entity of a built domain model with non-empty state fields has a
MODIFIES relation whose source starts with `<Entity>.`. -/
theorem build_entity_has_modifies (ns : List SemanticNode)
    (e : DomainEntity) (he : e ∈ (build ns).entities)
    (hsf : e.stateFields ≠ []) :
    ∃ rel ∈ (build ns).relations,
      rel.type = DomainRelationType.MODIFIES ∧
      jsStartsWith rel.from_ (e.name ++ ".") = true := by
  have hpass := foldl_preserves pass1Step
    (fun acc => ∀ e ∈ acc.1, e.stateFields ≠ [] → ∃ rel ∈ acc.2,
      rel.type = DomainRelationType.MODIFIES ∧
      jsStartsWith rel.from_ (e.name ++ ".") = true)
    (buildClassNodes ns)
    (fun acc c hInv => pass1Step_preserves acc c hInv)
    ([], []) (by simp)
  rcases hpass e he hsf with ⟨rel, hrel, hty, hpre⟩
  refine ⟨rel, ?_, hty, hpre⟩
  exact foldl_mono assignStep _
    (fun acc sn r hr => assignStep_mono acc sn r hr) _ rel
    (foldl_mono callStep _
      (fun acc sn r hr => callStep_mono acc sn r hr) _ rel hrel)

theorem mem_foldl_push {α β : Type} (p : β → Prop) [DecidablePred p]
    (g : β → α) (l : List β) :
    ∀ acc v, v ∈ l.foldl (fun acc x => if p x then acc ++ [g x] else acc)
      acc → v ∈ acc ∨ ∃ x ∈ l, p x ∧ v = g x := by
  induction l with
  | nil => intro acc v hv; exact Or.inl hv
  | cons b bs ih =>
    intro acc v hv
    rcases ih _ v hv with h1 | ⟨x, hx, hp, hveq⟩
    · dsimp only at h1
      by_cases hp : p b
      · rw [if_pos hp] at h1
        rcases List.mem_append.mp h1 with h2 | h2
        · exact Or.inl h2
        · exact Or.inr ⟨b, List.mem_cons_self b bs, hp,
            List.mem_singleton.mp h2⟩
      · rw [if_neg hp] at h1
        exact Or.inl h1
    · exact Or.inr ⟨x, List.mem_cons_of_mem b hx, hp, hveq⟩

/-- C10: every entity of a pipeline-built domain model with non-empty
state fields has a MODIFIES relation starting at `<Entity>.`, so the
Architectural Analyzer never emits an ANEMIC_ENTITY violation on a
pipeline-produced model, whatever the rule list. -/
theorem pipeline_never_anemic :
    (∀ ns (e : DomainEntity), e ∈ (build ns).entities →
      e.stateFields ≠ [] →
      ∃ rel ∈ (build ns).relations,
        rel.type = DomainRelationType.MODIFIES ∧
        jsStartsWith rel.from_ (e.name ++ ".") = true) ∧
    (∀ ns rs v, v ∈ analyze { domainModel := build ns, rules := rs } →
      v.type ≠ ArchitecturalViolationType.ANEMIC_ENTITY) := by
  refine ⟨build_entity_has_modifies, ?_⟩
  intro ns rs v hv
  unfold analyze at hv
  simp only [List.mem_append] at hv
  rcases hv with ((((h1 | h2) | h3) | h4) | h5) | h6
  · unfold domainCallingInfra at h1
    rcases mem_foldl_push _ _ _ [] v h1 with h | ⟨x, -, -, rfl⟩
    · cases h
    · simp
  · unfold rulesInController at h2
    rcases mem_foldl_push _ _ _ [] v h2 with h | ⟨x, -, -, rfl⟩
    · cases h
    · simp
  · unfold anemicEntities at h3
    rcases mem_foldl_push _ _ _ [] v h3 with h | ⟨e, he, ⟨hpos, hzero⟩, rfl⟩
    · cases h
    · exfalso
      have hsf : e.stateFields ≠ [] := by
        intro hnil
        rw [hnil] at hpos
        simp at hpos
      rcases build_entity_has_modifies ns e he hsf with ⟨rel, hrel, hty, hpre⟩
      have hrelf : rel ∈ (build ns).relations.filter (fun rel =>
          rel.type = DomainRelationType.MODIFIES ∧
          jsStartsWith rel.from_ (e.name ++ ".") = true) :=
        List.mem_filter.mpr ⟨hrel, by simp [hty, hpre]⟩
      have := List.length_pos.mpr (List.ne_nil_of_mem hrelf)
      omega
  · unfold fatServices at h4
    rcases mem_foldl_push _ _ _ [] v h4 with h | ⟨x, -, -, rfl⟩
    · cases h
    · simp
  · unfold layerViolations at h5
    rcases mem_foldl_push _ _ _ [] v h5 with h | ⟨x, -, -, rfl⟩
    · cases h
    · simp
  · unfold scatteredRules at h6
    rcases mem_foldl_push _ _ _ [] v h6 with h | ⟨x, -, -, rfl⟩
    · cases h
    · simp

/-- C10 witness: a pipeline-built model (an `Order` entity with state field
`status`) paired with a controller rule: the emitted violation is not
ANEMIC_ENTITY, and the entity's MODIFIES relation exists. -/
theorem pipeline_never_anemic_witness :
    c10viol.type ≠ ArchitecturalViolationType.ANEMIC_ENTITY ∧
    (∃ rel ∈ (build c10ns).relations,
      rel.type = DomainRelationType.MODIFIES ∧
      jsStartsWith rel.from_ (c10entity.name ++ ".") = true) :=
  ⟨pipeline_never_anemic.2 c10ns [c10ctrlRule] c10viol (by decide),
   pipeline_never_anemic.1 c10ns c10entity (by decide) (by decide)⟩

end ImpactAnalysis
